import Mathlib

/-!
Verification development for the `fantasy-znldn` scrapers
(`src/demo_scraper.py` and `src/scraper.py`).

The Python code is shallowly embedded: each extraction routine becomes an
executable Lean function over explicit representations of the pieces of the
parsed HTML document that the routine inspects (heading text, token streams,
table cells, anchors, sibling runs).  External collaborators (the HTTP client,
`urljoin`, `dateutil` parsing, the HTML tree library) are passed in as
parameters or represented by the data they deliver, exactly as the spec
classifies them.  Regular expressions are embedded operationally with Python's
leftmost / lazy / greedy backtracking semantics; the character classes
`\s` and `\d` are modelled by their ASCII members, which are the only ones the
patterns in this program can meet on its inputs.
-/

/-- Characters of the Python whitespace class `\s` (and of `str.strip()` /
`str.split()`), restricted to ASCII. -/
def isPySpace (c : Char) : Bool :=
  c = ' ' || c = '\t' || c = '\n' || c = '\r' || c = '\x0b' || c = '\x0c'

/-- Numeric value of a decimal digit string, as computed by Python `int()`
on a string of digits. -/
def digitsVal (ds : List Char) : Nat :=
  ds.foldl (fun n c => 10 * n + (c.toNat - '0'.toNat)) 0

/-- Python `str.strip()`: remove leading and trailing whitespace. -/
def pyStrip (cs : List Char) : List Char :=
  ((cs.dropWhile isPySpace).reverse.dropWhile isPySpace).reverse

/-- Python `str.isdigit()` (ASCII model): non-empty and all characters digits. -/
def pyIsDigit (cs : List Char) : Bool :=
  !cs.isEmpty && cs.all Char.isDigit

/-- The apostrophe character, written via its code point. -/
def apos : Char := Char.ofNat 39

/-!
## The header grammar of `_parse_header_info` (src/demo_scraper.py lines 59-79)

The Python code matches the normalized `<h1>` text against

  `re.match(r"(.+?)\s*-\s*(.+?)\s+(\d+):(\d+),\s*(.+)", title)`

and, on success, strips each captured group and converts the two digit groups
with `int`.  The functions below embed that regex operationally with Python's
backtracking semantics: lazy groups take the shortest matching prefix, greedy
pieces take the longest, and `.` never matches a newline.
-/

/-- Models a lazy group `(.+?)` followed by a tail matcher `f`: the group
captures the shortest non-empty run of non-newline characters after which `f`
succeeds on the remaining input.  `acc` holds the characters captured so far. -/
def lazyScan {β : Type} (f : List Char → Option β) : List Char → List Char → Option (List Char × β)
  | _, [] => none
  | acc, c :: rest =>
    if c = '\n' then none
    else
      match f rest with
      | some r => some (acc ++ [c], r)
      | none => lazyScan f (acc ++ [c]) rest

/-- Models the final `\s*(.+)` of the header regex.  The greedy `\s*` prefers
to consume the whole whitespace run; if no non-newline character follows it
gives back whitespace one character at a time so that `(.+)` can still capture
a character (which must itself not be a newline). -/
def matchGroup5 (cs : List Char) : Option (List Char) :=
  let sp := cs.takeWhile isPySpace
  let rest := cs.dropWhile isPySpace
  match rest with
  | c :: _ =>
    if c = '\n' then
      match sp.reverse.dropWhile (fun x => x = '\n') with
      | [] => none
      | c2 :: _ => some [c2]
    else some (rest.takeWhile (fun x => !(x = '\n')))
  | [] =>
    match sp.reverse.dropWhile (fun x => x = '\n') with
    | [] => none
    | c2 :: _ => some [c2]

/-- Models `\s+(\d+):(\d+),` followed by `matchGroup5`, the part of the header
regex after the away-team group.  Each greedy piece is deterministic here:
giving back a whitespace character would put a non-digit where `(\d+)` must
start, and giving back a digit would put a non-`:` (resp. non-`,`) where the
literal must be. -/
def matchScoreTail (cs : List Char) : Option (Nat × Nat × List Char) :=
  if (cs.takeWhile isPySpace).isEmpty then none
  else if ((cs.dropWhile isPySpace).takeWhile Char.isDigit).isEmpty then none
  else
    match (cs.dropWhile isPySpace).dropWhile Char.isDigit with
    | c :: r2 =>
      if c = ':' then
        if (r2.takeWhile Char.isDigit).isEmpty then none
        else
          match r2.dropWhile Char.isDigit with
          | c2 :: r3 =>
            if c2 = ',' then
              (matchGroup5 r3).map
                (fun g5 => (digitsVal ((cs.dropWhile isPySpace).takeWhile Char.isDigit),
                            digitsVal (r2.takeWhile Char.isDigit), g5))
            else none
          | [] => none
      else none
    | [] => none

/-- Models the away-team group `(.+?)` followed by `matchScoreTail`. -/
def matchAwayPart (cs : List Char) : Option (List Char × Nat × Nat × List Char) :=
  lazyScan matchScoreTail [] cs

/-- Backtracking of the greedy `\s*` that sits between `-` and the away-team
group: the whitespace run (held reversed in `spRev`) is consumed greedily
first, and is given back one character at a time until the away part matches. -/
def giveBackSpaces : List Char → List Char → Option (List Char × Nat × Nat × List Char)
  | spRev, rest =>
    match matchAwayPart rest with
    | some r => some r
    | none =>
      match spRev with
      | [] => none
      | c :: spRev2 => giveBackSpaces spRev2 (c :: rest)

/-- Models `\s*-\s*` followed by the away part of the header regex.  The first
greedy `\s*` is deterministic (giving back whitespace puts whitespace where the
literal `-` must be). -/
def matchDashTail (cs : List Char) : Option (List Char × Nat × Nat × List Char) :=
  match cs.dropWhile isPySpace with
  | c :: r =>
    if c = '-' then giveBackSpaces (r.takeWhile isPySpace).reverse (r.dropWhile isPySpace)
    else none
  | [] => none

/-- Result of `_parse_header_info` (src/demo_scraper.py lines 72-79). -/
structure HeaderInfo where
  home_team : String
  away_team : String
  home_score : Nat
  away_score : Nat
  competition : String
deriving DecidableEq, Repr

/-- The regex match plus group post-processing of `_parse_header_info`
(src/demo_scraper.py lines 68-79), applied to the already-normalized title:
match `(.+?)\s*-\s*(.+?)\s+(\d+):(\d+),\s*(.+)` anchored at the start, then
`strip` the name groups and convert the digit groups with `int`. -/
def parseHeaderTitle (title : String) : Option HeaderInfo :=
  match lazyScan matchDashTail [] title.data with
  | none => none
  | some (h, aw, x, y, comp) =>
    some { home_team := (pyStrip h).asString
           away_team := (pyStrip aw).asString
           home_score := x
           away_score := y
           competition := (pyStrip comp).asString }

/-- Concatenation of the components of a header title in the valid shape
`"<A> - <B> <x>:<y>, <C>"` from claim C1. -/
def mkTitle (A B xs ys C : List Char) : String :=
  (A ++ (' ' :: '-' :: ' ' :: []) ++ B ++ [' '] ++ xs ++ [':'] ++ ys ++ (',' :: ' ' :: []) ++ C).asString

example : parseHeaderTitle "NK Hajduk 1932 - NK Croatia Gabrili 4:3, 1. ZNL 25/26" =
    some { home_team := "NK Hajduk 1932", away_team := "NK Croatia Gabrili",
           home_score := 4, away_score := 3, competition := "1. ZNL 25/26" } := by
  decide

example : parseHeaderTitle (mkTitle "X - Y".data "Z".data "1".data "0".data "C".data) =
    some { home_team := "X", away_team := "Y - Z",
           home_score := 1, away_score := 0, competition := "C" } := by
  decide

example : parseHeaderTitle "no dash here 4:3, cup" = none := by decide

example : parseHeaderTitle "A - B, cup" = none := by decide

/-! ### List and scanning lemmas used to reason about the header matcher -/

lemma data_asString (l : List Char) : l.asString.data = l := rfl

lemma dropWhile_head_prop {p : Char → Bool} :
    ∀ {l r : List Char} {c : Char}, l.dropWhile p = c :: r → p c = false ∧ c ∈ l := by
  intro l
  induction l with
  | nil => intro r c h; simp [List.dropWhile] at h
  | cons a t ih =>
    intro r c h
    rw [List.dropWhile_cons] at h
    by_cases hp : p a = true
    · rw [if_pos hp] at h
      rcases ih h with ⟨h1, h2⟩
      exact ⟨h1, List.mem_cons_of_mem _ h2⟩
    · rw [if_neg hp] at h
      injection h with hc ht
      subst hc
      exact ⟨by simpa using hp, List.mem_cons_self _ _⟩

lemma dropWhile_ne_nil {p : Char → Bool} {l : List Char} {x : Char}
    (hx : x ∈ l) (hpx : p x = false) : l.dropWhile p ≠ [] := by
  intro h
  rw [List.dropWhile_eq_nil_iff] at h
  rw [h x hx] at hpx
  cases hpx

lemma dropWhile_append_of_ne_nil {p : Char → Bool} {l t : List Char}
    (h : l.dropWhile p ≠ []) : (l ++ t).dropWhile p = l.dropWhile p ++ t := by
  rw [List.dropWhile_append, if_neg]
  simpa using h

lemma takeWhile_append_of_not_all {p : Char → Bool} {l t : List Char}
    (h : ¬ ∀ x ∈ l, p x = true) : (l ++ t).takeWhile p = l.takeWhile p := by
  rw [List.takeWhile_append, if_neg]
  intro hlen
  have heq : l.takeWhile p = l := (List.takeWhile_sublist p).eq_of_length hlen
  exact h (List.takeWhile_eq_self_iff.mp heq)

lemma getLast?_of_suffix {q l : List Char} (h : q <:+ l) (hq : q ≠ []) :
    l.getLast? = q.getLast? := by
  obtain ⟨p, rfl⟩ := h
  exact List.getLast?_append_of_ne_nil _ hq

lemma takeWhile_append_eq_nil {p : Char → Bool} {l t : List Char}
    (hl : l ≠ []) (hh : ∀ c, l.head? = some c → p c = false) :
    (l ++ t).takeWhile p = [] := by
  cases l with
  | nil => exact absurd rfl hl
  | cons c r => simp [List.takeWhile_cons, hh c rfl]

lemma dropWhile_append_eq_self {p : Char → Bool} {l t : List Char}
    (hl : l ≠ []) (hh : ∀ c, l.head? = some c → p c = false) :
    (l ++ t).dropWhile p = l ++ t := by
  cases l with
  | nil => exact absurd rfl hl
  | cons c r => simp [List.dropWhile_cons, hh c rfl]

lemma dropWhile_eq_self_of_head {p : Char → Bool} {l : List Char}
    (hh : ∀ c, l.head? = some c → p c = false) : l.dropWhile p = l := by
  cases l with
  | nil => rfl
  | cons c r => simp [List.dropWhile_cons, hh c rfl]

lemma pyStrip_eq_self {l : List Char}
    (h1 : ∀ c, l.head? = some c → isPySpace c = false)
    (h2 : ∀ c, l.getLast? = some c → isPySpace c = false) : pyStrip l = l := by
  unfold pyStrip
  rw [dropWhile_eq_self_of_head h1]
  rw [dropWhile_eq_self_of_head (fun c hc => h2 c (by rwa [List.head?_reverse] at hc))]
  exact List.reverse_reverse l

lemma isPySpace_cases {c : Char} (h : isPySpace c = true) :
    c = ' ' ∨ c = '\t' ∨ c = '\n' ∨ c = '\r' ∨ c = '\x0b' ∨ c = '\x0c' := by
  simp only [isPySpace, Bool.or_eq_true, decide_eq_true_eq] at h
  tauto

lemma isDigit_not_pySpace {c : Char} (h : c.isDigit = true) : isPySpace c = false := by
  cases hs : isPySpace c with
  | false => rfl
  | true => rcases isPySpace_cases hs with rfl|rfl|rfl|rfl|rfl|rfl <;> exact absurd h (by decide)

lemma not_pySpace_ne_newline {c : Char} (h : isPySpace c = false) : ¬ (c = '\n') := by
  intro h2
  subst h2
  simp [isPySpace] at h

lemma lazyScan_cons {β : Type} (f : List Char → Option β) (acc : List Char) (c : Char)
    (rest : List Char) :
    lazyScan f acc (c :: rest) =
      if c = '\n' then none
      else
        match f rest with
        | some r => some (acc ++ [c], r)
        | none => lazyScan f (acc ++ [c]) rest := rfl

theorem lazyScan_exact {β : Type} (f : List Char → Option β) (pre : List Char) :
    ∀ (acc rest : List Char) (r : β), pre ≠ [] → (∀ c ∈ pre, ¬ (c = '\n')) →
      (∀ q, q <:+ pre → q ≠ pre → q ≠ [] → f (q ++ rest) = none) →
      f rest = some r →
      lazyScan f acc (pre ++ rest) = some (acc ++ pre, r) := by
  induction pre with
  | nil => intro _ _ _ h _ _ _; exact absurd rfl h
  | cons c tail ih =>
    intro acc rest r _ hnl hfail hsucc
    have hc : ¬ (c = '\n') := hnl c (List.mem_cons_self _ _)
    cases tail with
    | nil =>
      simp only [List.cons_append, List.nil_append, lazyScan_cons, if_neg hc, hsucc]
    | cons c2 t =>
      have hfrest : f ((c2 :: t) ++ rest) = none := by
        apply hfail (c2 :: t) (List.suffix_cons c _) ?_ (by simp)
        intro hEq
        have := congrArg List.length hEq
        simp at this
      have hih := ih (acc ++ [c]) rest r (by simp)
        (fun x hx => hnl x (List.mem_cons_of_mem _ hx))
        (fun q hq hne hqn => hfail q (hq.trans (List.suffix_cons c _))
          (by
            intro hEq
            subst hEq
            have h1 := hq.length_le
            simp at h1) hqn)
        hsucc
      rw [List.cons_append, lazyScan_cons, if_neg hc, hfrest]
      rw [hih]
      simp

lemma lazyScan_none {β : Type} (f : List Char → Option β) :
    ∀ (cs acc : List Char), (∀ q, q <:+ cs → f q = none) → lazyScan f acc cs = none := by
  intro cs
  induction cs with
  | nil => intro acc _; rfl
  | cons c rest ih =>
    intro acc h
    rw [lazyScan_cons]
    by_cases hc : c = '\n'
    · rw [if_pos hc]
    · rw [if_neg hc, h rest (List.suffix_cons c rest)]
      exact ih (acc ++ [c]) (fun q hq => h q (hq.trans (List.suffix_cons c rest)))

lemma lazyScan_some_imp {β : Type} (f : List Char → Option β) :
    ∀ (cs acc : List Char) (res : List Char × β), lazyScan f acc cs = some res →
      ∃ q b, q <:+ cs ∧ f q = some b := by
  intro cs
  induction cs with
  | nil => intro acc res h; exact Option.noConfusion h
  | cons c rest ih =>
    intro acc res h
    rw [lazyScan_cons] at h
    by_cases hc : c = '\n'
    · rw [if_pos hc] at h; exact Option.noConfusion h
    · rw [if_neg hc] at h
      cases hf : f rest with
      | some b => exact ⟨rest, b, List.suffix_cons c rest, hf⟩
      | none =>
        rw [hf] at h
        rcases ih (acc ++ [c]) res h with ⟨q, b, hq, hb⟩
        exact ⟨q, b, hq.trans (List.suffix_cons c rest), hb⟩

lemma mem_of_head? {l : List Char} {c : Char} (h : l.head? = some c) : c ∈ l := by
  cases l with
  | nil => exact Option.noConfusion h
  | cons a t =>
    injection h with h1
    subst h1
    exact List.mem_cons_self _ _

lemma takeWhile_digits_append {xs t : List Char} {c : Char}
    (hxsd : ∀ x ∈ xs, x.isDigit = true) (hc : c.isDigit = false) :
    (xs ++ c :: t).takeWhile Char.isDigit = xs := by
  have h1 : xs.takeWhile Char.isDigit = xs := List.takeWhile_eq_self_iff.mpr hxsd
  rw [List.takeWhile_append, if_pos (by rw [h1]), List.takeWhile_cons, if_neg (by simp [hc]),
    List.append_nil]

lemma dropWhile_digits_append {xs t : List Char} {c : Char}
    (hxsd : ∀ x ∈ xs, x.isDigit = true) (hc : c.isDigit = false) :
    (xs ++ c :: t).dropWhile Char.isDigit = c :: t := by
  have h1 : xs.dropWhile Char.isDigit = [] := List.dropWhile_eq_nil_iff.mpr hxsd
  rw [List.dropWhile_append, if_pos (by simp [h1]), List.dropWhile_cons, if_neg (by simp [hc])]

lemma matchDashTail_none_of_suffix {A rest1 q : List Char}
    (hq : q <:+ A) (hqn : q ≠ [])
    (hAdash : ∀ c ∈ A, ¬ (c = '-'))
    (hAl : ∀ c, A.getLast? = some c → isPySpace c = false) :
    matchDashTail (q ++ rest1) = none := by
  have hlastmem : q.getLast hqn ∈ q := List.getLast_mem hqn
  have hlast : isPySpace (q.getLast hqn) = false :=
    hAl _ ((getLast?_of_suffix hq hqn).trans (List.getLast?_eq_getLast q hqn))
  have hdq : q.dropWhile isPySpace ≠ [] := dropWhile_ne_nil hlastmem hlast
  obtain ⟨c, r, hcr⟩ : ∃ c r, q.dropWhile isPySpace = c :: r := by
    cases h : q.dropWhile isPySpace with
    | nil => exact absurd h hdq
    | cons c r => exact ⟨c, r, rfl⟩
  have hcprop := dropWhile_head_prop hcr
  have hcne : ¬ (c = '-') := hAdash c (hq.mem hcprop.2)
  unfold matchDashTail
  rw [dropWhile_append_of_ne_nil hdq, hcr, List.cons_append]
  simp [hcne]

lemma matchScoreTail_none_of_suffix {B rest2 q : List Char}
    (hq : q <:+ B) (hqn : q ≠ [])
    (hBcolon : ∀ c ∈ B, ¬ (c = ':'))
    (hBl : ∀ c, B.getLast? = some c → isPySpace c = false) :
    matchScoreTail (q ++ (' ' :: rest2)) = none := by
  have hlastmem : q.getLast hqn ∈ q := List.getLast_mem hqn
  have hlast : isPySpace (q.getLast hqn) = false :=
    hBl _ ((getLast?_of_suffix hq hqn).trans (List.getLast?_eq_getLast q hqn))
  have hnotallsp : ¬ ∀ x ∈ q, isPySpace x = true := by
    intro hall
    rw [hall _ hlastmem] at hlast
    cases hlast
  have htw : (q ++ (' ' :: rest2)).takeWhile isPySpace = q.takeWhile isPySpace :=
    takeWhile_append_of_not_all hnotallsp
  by_cases hsp : (q.takeWhile isPySpace).isEmpty
  · unfold matchScoreTail
    rw [htw, if_pos hsp]
  · have hdqne : q.dropWhile isPySpace ≠ [] := dropWhile_ne_nil hlastmem hlast
    have hdw : (q ++ (' ' :: rest2)).dropWhile isPySpace
        = q.dropWhile isPySpace ++ (' ' :: rest2) := dropWhile_append_of_ne_nil hdqne
    have hdqsuffix : q.dropWhile isPySpace <:+ q := List.dropWhile_suffix isPySpace
    by_cases hdig : ∀ x ∈ q.dropWhile isPySpace, x.isDigit = true
    · have htw2 : (q.dropWhile isPySpace ++ (' ' :: rest2)).takeWhile Char.isDigit
          = q.dropWhile isPySpace := by
        have h1 : (q.dropWhile isPySpace).takeWhile Char.isDigit = q.dropWhile isPySpace :=
          List.takeWhile_eq_self_iff.mpr hdig
        rw [List.takeWhile_append, if_pos (by rw [h1]), List.takeWhile_cons,
          if_neg (by decide), List.append_nil]
      have hdw2 : (q.dropWhile isPySpace ++ (' ' :: rest2)).dropWhile Char.isDigit
          = ' ' :: rest2 := by
        have h1 : (q.dropWhile isPySpace).dropWhile Char.isDigit = [] :=
          List.dropWhile_eq_nil_iff.mpr hdig
        rw [List.dropWhile_append, if_pos (by simp [h1]), List.dropWhile_cons,
          if_neg (by decide)]
      unfold matchScoreTail
      rw [htw, if_neg hsp, hdw]
      by_cases hds1 : ((q.dropWhile isPySpace ++ (' ' :: rest2)).takeWhile Char.isDigit).isEmpty
      · rw [if_pos hds1]
      · rw [if_neg hds1, hdw2]
        simp
    · push_neg at hdig
      obtain ⟨x, hxmem, hxd⟩ := hdig
      have hxd' : x.isDigit = false := by
        revert hxd
        cases x.isDigit <;> simp
      have hddne : (q.dropWhile isPySpace).dropWhile Char.isDigit ≠ [] :=
        dropWhile_ne_nil hxmem hxd'
      have hdw2 : (q.dropWhile isPySpace ++ (' ' :: rest2)).dropWhile Char.isDigit
          = (q.dropWhile isPySpace).dropWhile Char.isDigit ++ (' ' :: rest2) :=
        dropWhile_append_of_ne_nil hddne
      obtain ⟨c, r, hcr⟩ : ∃ c r, (q.dropWhile isPySpace).dropWhile Char.isDigit = c :: r := by
        cases h : (q.dropWhile isPySpace).dropWhile Char.isDigit with
        | nil => exact absurd h hddne
        | cons c r => exact ⟨c, r, rfl⟩
      have hcprop := dropWhile_head_prop hcr
      have hcmemq : c ∈ q := hdqsuffix.mem hcprop.2
      have hcne : ¬ (c = ':') := hBcolon c (hq.mem hcmemq)
      unfold matchScoreTail
      rw [htw, if_neg hsp, hdw]
      by_cases hds1 : ((q.dropWhile isPySpace ++ (' ' :: rest2)).takeWhile Char.isDigit).isEmpty
      · rw [if_pos hds1]
      · rw [if_neg hds1, hdw2, hcr, List.cons_append]
        simp [hcne]

lemma matchGroup5_exact {C : List Char} (hC : C ≠ [])
    (hCh : ∀ c, C.head? = some c → isPySpace c = false)
    (hCnl : ∀ c ∈ C, ¬ (c = '\n')) :
    matchGroup5 (' ' :: C) = some C := by
  obtain ⟨c0, C', rfl⟩ : ∃ c0 C', C = c0 :: C' := by
    cases C with
    | nil => exact absurd rfl hC
    | cons a b => exact ⟨a, b, rfl⟩
  have h0 : isPySpace c0 = false := hCh c0 rfl
  have hdrop : (' ' :: c0 :: C').dropWhile isPySpace = c0 :: C' := by
    rw [List.dropWhile_cons, if_pos (by decide), List.dropWhile_cons, if_neg (by simp [h0])]
  have htake : (c0 :: C').takeWhile (fun x => !(x = '\n')) = c0 :: C' :=
    List.takeWhile_eq_self_iff.mpr (by
      intro x hx
      simpa using hCnl x hx)
  simp only [matchGroup5, hdrop]
  rw [if_neg (not_pySpace_ne_newline h0), htake]

lemma matchScoreTail_exact {xs ys C : List Char}
    (hxs : xs ≠ []) (hxsd : ∀ c ∈ xs, c.isDigit = true)
    (hys : ys ≠ []) (hysd : ∀ c ∈ ys, c.isDigit = true)
    (hC : C ≠ []) (hCh : ∀ c, C.head? = some c → isPySpace c = false)
    (hCnl : ∀ c ∈ C, ¬ (c = '\n')) :
    matchScoreTail (' ' :: (xs ++ ':' :: (ys ++ ',' :: ' ' :: C)))
      = some (digitsVal xs, digitsVal ys, C) := by
  have hxs_head : ∀ c, xs.head? = some c → isPySpace c = false :=
    fun c hc => isDigit_not_pySpace (hxsd c (mem_of_head? hc))
  have htakesp : (' ' :: (xs ++ ':' :: (ys ++ ',' :: ' ' :: C))).takeWhile isPySpace = [' '] := by
    rw [List.takeWhile_cons, if_pos (by decide), takeWhile_append_eq_nil hxs hxs_head]
  have hdropsp : (' ' :: (xs ++ ':' :: (ys ++ ',' :: ' ' :: C))).dropWhile isPySpace
      = xs ++ ':' :: (ys ++ ',' :: ' ' :: C) := by
    rw [List.dropWhile_cons, if_pos (by decide), dropWhile_append_eq_self hxs hxs_head]
  have hty : (ys ++ ',' :: ' ' :: C).takeWhile Char.isDigit = ys :=
    takeWhile_digits_append hysd (by decide)
  have hdy : (ys ++ ',' :: ' ' :: C).dropWhile Char.isDigit = ',' :: ' ' :: C :=
    dropWhile_digits_append hysd (by decide)
  have htx : (xs ++ ':' :: (ys ++ ',' :: ' ' :: C)).takeWhile Char.isDigit = xs :=
    takeWhile_digits_append hxsd (by decide)
  have hdx : (xs ++ ':' :: (ys ++ ',' :: ' ' :: C)).dropWhile Char.isDigit
      = ':' :: (ys ++ ',' :: ' ' :: C) := dropWhile_digits_append hxsd (by decide)
  unfold matchScoreTail
  rw [htakesp, if_neg (by decide), hdropsp, htx, if_neg (by simpa using hxs), hdx]
  simp [hty, hdy, matchGroup5_exact hC hCh hCnl, List.isEmpty_iff, hys]

lemma matchAwayPart_exact {B xs ys C : List Char}
    (hB : B ≠ []) (hBnl : ∀ c ∈ B, ¬ (c = '\n')) (hBcolon : ∀ c ∈ B, ¬ (c = ':'))
    (hBl : ∀ c, B.getLast? = some c → isPySpace c = false)
    (hxs : xs ≠ []) (hxsd : ∀ c ∈ xs, c.isDigit = true)
    (hys : ys ≠ []) (hysd : ∀ c ∈ ys, c.isDigit = true)
    (hC : C ≠ []) (hCh : ∀ c, C.head? = some c → isPySpace c = false)
    (hCnl : ∀ c ∈ C, ¬ (c = '\n')) :
    matchAwayPart (B ++ (' ' :: (xs ++ ':' :: (ys ++ ',' :: ' ' :: C))))
      = some (B, digitsVal xs, digitsVal ys, C) := by
  unfold matchAwayPart
  have h := lazyScan_exact matchScoreTail B [] (' ' :: (xs ++ ':' :: (ys ++ ',' :: ' ' :: C)))
    (digitsVal xs, digitsVal ys, C) hB hBnl
    (fun q hq hne hqn => matchScoreTail_none_of_suffix hq hqn hBcolon hBl)
    (matchScoreTail_exact hxs hxsd hys hysd hC hCh hCnl)
  simpa using h

lemma giveBackSpaces_eq (spRev rest : List Char) :
    giveBackSpaces spRev rest =
      match matchAwayPart rest with
      | some r => some r
      | none =>
        match spRev with
        | [] => none
        | c :: spRev2 => giveBackSpaces spRev2 (c :: rest) := by
  cases h : matchAwayPart rest with
  | some r =>
    cases spRev with
    | nil => simp [giveBackSpaces, h]
    | cons c t => simp [giveBackSpaces, h]
  | none =>
    cases spRev with
    | nil => simp [giveBackSpaces, h]
    | cons c t => simp [giveBackSpaces, h]

lemma matchDashTail_exact {B xs ys C : List Char}
    (hB : B ≠ []) (hBnl : ∀ c ∈ B, ¬ (c = '\n')) (hBcolon : ∀ c ∈ B, ¬ (c = ':'))
    (hBh : ∀ c, B.head? = some c → isPySpace c = false)
    (hBl : ∀ c, B.getLast? = some c → isPySpace c = false)
    (hxs : xs ≠ []) (hxsd : ∀ c ∈ xs, c.isDigit = true)
    (hys : ys ≠ []) (hysd : ∀ c ∈ ys, c.isDigit = true)
    (hC : C ≠ []) (hCh : ∀ c, C.head? = some c → isPySpace c = false)
    (hCnl : ∀ c ∈ C, ¬ (c = '\n')) :
    matchDashTail (' ' :: '-' :: ' ' :: (B ++ (' ' :: (xs ++ ':' :: (ys ++ ',' :: ' ' :: C)))))
      = some (B, digitsVal xs, digitsVal ys, C) := by
  have htk : (' ' :: (B ++ (' ' :: (xs ++ ':' :: (ys ++ ',' :: ' ' :: C))))).takeWhile isPySpace
      = [' '] := by
    rw [List.takeWhile_cons, if_pos (by decide), takeWhile_append_eq_nil hB hBh]
  have hdp : (' ' :: (B ++ (' ' :: (xs ++ ':' :: (ys ++ ',' :: ' ' :: C))))).dropWhile isPySpace
      = B ++ (' ' :: (xs ++ ':' :: (ys ++ ',' :: ' ' :: C))) := by
    rw [List.dropWhile_cons, if_pos (by decide), dropWhile_append_eq_self hB hBh]
  unfold matchDashTail
  rw [List.dropWhile_cons, if_pos (by decide), List.dropWhile_cons, if_neg (by decide)]
  simp only
  rw [if_pos trivial, htk, hdp, giveBackSpaces_eq,
    matchAwayPart_exact hB hBnl hBcolon hBl hxs hxsd hys hysd hC hCh hCnl]

/-- Claim C1 (amended): for every normalized heading text of the valid form
`"<A> - <B> <x>:<y>, <C>"` in which additionally the home name `A` contains no
`-` character and the away name `B` contains no `:` character,
`_parse_header_info` returns `home_team = A`, `away_team = B`,
`home_score = x`, `away_score = y`, `competition = C` exactly, each trimmed of
surrounding whitespace.  (Without the extra conditions the lazy groups of the
regex can cut `A` at an interior dash or `B` at an interior score pattern; see
`C1_counterexample`.) -/
theorem C1_header_roundtrip (A B C xs ys : List Char)
    (hA : A ≠ []) (hAnl : ∀ c ∈ A, ¬ (c = '\n')) (hAdash : ∀ c ∈ A, ¬ (c = '-'))
    (hAh : ∀ c, A.head? = some c → isPySpace c = false)
    (hAl : ∀ c, A.getLast? = some c → isPySpace c = false)
    (hB : B ≠ []) (hBnl : ∀ c ∈ B, ¬ (c = '\n')) (hBcolon : ∀ c ∈ B, ¬ (c = ':'))
    (hBh : ∀ c, B.head? = some c → isPySpace c = false)
    (hBl : ∀ c, B.getLast? = some c → isPySpace c = false)
    (hC : C ≠ []) (hCnl : ∀ c ∈ C, ¬ (c = '\n'))
    (hCh : ∀ c, C.head? = some c → isPySpace c = false)
    (hCl : ∀ c, C.getLast? = some c → isPySpace c = false)
    (hxs : xs ≠ []) (hxsd : ∀ c ∈ xs, c.isDigit = true)
    (hys : ys ≠ []) (hysd : ∀ c ∈ ys, c.isDigit = true) :
    parseHeaderTitle (mkTitle A B xs ys C) =
      some { home_team := A.asString, away_team := B.asString,
             home_score := digitsVal xs, away_score := digitsVal ys,
             competition := C.asString } := by
  have hdata : (mkTitle A B xs ys C).data
      = A ++ (' ' :: '-' :: ' ' :: (B ++ (' ' :: (xs ++ ':' :: (ys ++ ',' :: ' ' :: C))))) := by
    unfold mkTitle
    rw [data_asString]
    simp
  have hscan : lazyScan matchDashTail [] (mkTitle A B xs ys C).data
      = some (A, B, digitsVal xs, digitsVal ys, C) := by
    rw [hdata]
    have h := lazyScan_exact matchDashTail A []
      (' ' :: '-' :: ' ' :: (B ++ (' ' :: (xs ++ ':' :: (ys ++ ',' :: ' ' :: C)))))
      (B, digitsVal xs, digitsVal ys, C) hA hAnl
      (fun q hq hne hqn => matchDashTail_none_of_suffix hq hqn hAdash hAl)
      (matchDashTail_exact hB hBnl hBcolon hBh hBl hxs hxsd hys hysd hC hCh hCnl)
    simpa using h
  unfold parseHeaderTitle
  rw [hscan]
  simp only [pyStrip_eq_self hAh hAl, pyStrip_eq_self hBh hBl, pyStrip_eq_self hCh hCl]

/-- Claim C1 counterexample: the normalized heading "X - Y - Z 1:0, C" has the
claim's valid form with home team "X - Y", away team "Z", score 1:0 and
competition "C", yet `_parse_header_info` returns home team "X" and away team
"Y - Z" (the lazy first group stops at the first dash), so the claim as stated
is false. -/
theorem C1_counterexample :
    parseHeaderTitle (mkTitle "X - Y".data "Z".data "1".data "0".data "C".data) =
      some { home_team := "X", away_team := "Y - Z", home_score := 1, away_score := 0,
             competition := "C" } ∧
    ¬ ("X" = "X - Y") := by
  decide

/-- Witness: `C1_header_roundtrip` applied to the concrete valid heading
"NK Orebic - ONK Metkovic 4:5, 1. ZNL". -/
theorem C1_header_roundtrip_witness :
    parseHeaderTitle (mkTitle "NK Orebic".data "ONK Metkovic".data "4".data "5".data "1. ZNL".data)
      = some { home_team := "NK Orebic", away_team := "ONK Metkovic",
               home_score := 4, away_score := 5, competition := "1. ZNL" } := by
  have h := C1_header_roundtrip "NK Orebic".data "ONK Metkovic".data "1. ZNL".data "4".data "5".data
    (by decide) (by decide) (by decide) (by decide) (by decide)
    (by decide) (by decide) (by decide) (by decide) (by decide)
    (by decide) (by decide) (by decide) (by decide)
    (by decide) (by decide) (by decide) (by decide)
  exact h

/-!
## Claim C3: the fatal paths of `_parse_header_info`

`_parse_header_info` (src/demo_scraper.py lines 59-70) raises `RuntimeError`
when the document has no `<h1>` and when the normalized title fails the header
regex; a successful match only builds the result dictionary, which cannot
raise (`int` on a `\d+` group always succeeds).
-/

mutual
/-- Model of `" ".join(s.split())` while inside a word: copy characters until
whitespace is seen. -/
def collapseWord : List Char → List Char
  | [] => []
  | c :: rest => if isPySpace c then collapsePending rest else c :: collapseWord rest
/-- Model of `" ".join(s.split())` after whitespace: skip the run and emit a
single separating space before the next word, if any. -/
def collapsePending : List Char → List Char
  | [] => []
  | c :: rest => if isPySpace c then collapsePending rest else ' ' :: c :: collapseWord rest
end

/-- Python `" ".join(s.split())` (src/demo_scraper.py line 65): trim the ends
and collapse every interior whitespace run to a single space. -/
def normalizeWs (cs : List Char) : List Char :=
  collapseWord (cs.dropWhile isPySpace)

/-- `_parse_header_info` (src/demo_scraper.py lines 59-79) on a document
represented by its primary heading text (`none` when the document has no
`<h1>`); the `RuntimeError` raises become `Except.error` with the message. -/
def parseHeaderInfo (h1Text : Option String) : Except String HeaderInfo :=
  match h1Text with
  | none => Except.error "Could not find match title <h1>"
  | some t =>
    match parseHeaderTitle (normalizeWs t.data).asString with
    | none => Except.error "Unexpected match title format"
    | some h => Except.ok h

/-- Whether an `Except` value is an error. -/
def isError {ε α : Type} : Except ε α → Bool
  | Except.error _ => true
  | Except.ok _ => false

lemma collapse_mem : ∀ (l : List Char),
    (∀ c ∈ collapseWord l, c ∈ l ∨ c = ' ') ∧ (∀ c ∈ collapsePending l, c ∈ l ∨ c = ' ') := by
  intro l
  induction l with
  | nil => exact ⟨by simp [collapseWord], by simp [collapsePending]⟩
  | cons a t ih =>
    constructor
    · intro c hc
      rw [collapseWord] at hc
      by_cases ha : isPySpace a
      · rw [if_pos ha] at hc
        rcases ih.2 c hc with h1 | h2
        · exact Or.inl (List.mem_cons_of_mem _ h1)
        · exact Or.inr h2
      · rw [if_neg ha] at hc
        rcases List.mem_cons.mp hc with rfl | h1
        · exact Or.inl (List.mem_cons_self _ _)
        · rcases ih.1 c h1 with h2 | h3
          · exact Or.inl (List.mem_cons_of_mem _ h2)
          · exact Or.inr h3
    · intro c hc
      rw [collapsePending] at hc
      by_cases ha : isPySpace a
      · rw [if_pos ha] at hc
        rcases ih.2 c hc with h1 | h2
        · exact Or.inl (List.mem_cons_of_mem _ h1)
        · exact Or.inr h2
      · rw [if_neg ha] at hc
        rcases List.mem_cons.mp hc with rfl | h1
        · exact Or.inr rfl
        · rcases List.mem_cons.mp h1 with rfl | h2
          · exact Or.inl (List.mem_cons_self _ _)
          · rcases ih.1 c h2 with h3 | h4
            · exact Or.inl (List.mem_cons_of_mem _ h3)
            · exact Or.inr h4

lemma normalizeWs_mem {cs : List Char} {c : Char} (h : c ∈ normalizeWs cs) :
    c ∈ cs ∨ c = ' ' := by
  rcases (collapse_mem (cs.dropWhile isPySpace)).1 c h with h1 | h2
  · exact Or.inl ((List.dropWhile_sublist _).mem h1)
  · exact Or.inr h2

lemma matchDashTail_none_of_no_dash {q : List Char} (h : '-' ∉ q) : matchDashTail q = none := by
  unfold matchDashTail
  cases hd : q.dropWhile isPySpace with
  | nil => rfl
  | cons c r =>
    have hc := dropWhile_head_prop hd
    have hne : ¬ (c = '-') := fun he => h (he ▸ hc.2)
    simp [hne]

lemma parseHeaderTitle_eq_none_of_no_dash {s : String} (h : '-' ∉ s.data) :
    parseHeaderTitle s = none := by
  unfold parseHeaderTitle
  rw [lazyScan_none matchDashTail s.data []
    (fun q hq => matchDashTail_none_of_no_dash (fun hc => h (hq.mem hc)))]

lemma matchScoreTail_some_colon {cs : List Char} {r} (h : matchScoreTail cs = some r) :
    ':' ∈ cs := by
  unfold matchScoreTail at h
  split at h
  · exact Option.noConfusion h
  · split at h
    · exact Option.noConfusion h
    · split at h
      · rename_i c r2 heq
        split at h
        · rename_i hc
          have h1 : c ∈ (cs.dropWhile isPySpace).dropWhile Char.isDigit := by
            rw [heq]
            exact List.mem_cons_self _ _
          have h2 := ((List.dropWhile_sublist _).trans (List.dropWhile_sublist _)).mem h1
          exact hc ▸ h2
        · exact Option.noConfusion h
      · exact Option.noConfusion h

lemma matchAwayPart_some_colon {rest : List Char} {r} (h : matchAwayPart rest = some r) :
    ':' ∈ rest := by
  unfold matchAwayPart at h
  obtain ⟨q, b2, hq, hb2⟩ := lazyScan_some_imp matchScoreTail rest [] r h
  exact hq.mem (matchScoreTail_some_colon hb2)

lemma giveBackSpaces_some_colon : ∀ (spRev rest : List Char) {b},
    giveBackSpaces spRev rest = some b → ':' ∈ spRev ∨ ':' ∈ rest := by
  intro spRev
  induction spRev with
  | nil =>
    intro rest b h
    rw [giveBackSpaces_eq] at h
    cases hm : matchAwayPart rest with
    | none =>
      simp only [hm] at h
      exact Option.noConfusion h
    | some r => exact Or.inr (matchAwayPart_some_colon hm)
  | cons c t ih =>
    intro rest b h
    rw [giveBackSpaces_eq] at h
    cases hm : matchAwayPart rest with
    | some r => exact Or.inr (matchAwayPart_some_colon hm)
    | none =>
      simp only [hm] at h
      rcases ih (c :: rest) h with h1 | h2
      · exact Or.inl (List.mem_cons_of_mem _ h1)
      · rcases List.mem_cons.mp h2 with h3 | h4
        · exact Or.inl (h3 ▸ List.mem_cons_self _ _)
        · exact Or.inr h4

lemma matchDashTail_some_colon {q : List Char} {b} (h : matchDashTail q = some b) : ':' ∈ q := by
  unfold matchDashTail at h
  cases hd : q.dropWhile isPySpace with
  | nil => rw [hd] at h; exact Option.noConfusion h
  | cons c r =>
    rw [hd] at h
    simp only at h
    by_cases hc : c = '-'
    · rw [if_pos hc] at h
      have hr : ':' ∈ r := by
        rcases giveBackSpaces_some_colon _ _ h with h1 | h2
        · exact (List.takeWhile_sublist _).mem (by simpa using h1)
        · exact (List.dropWhile_sublist _).mem h2
      have h3 : ':' ∈ q.dropWhile isPySpace := by
        rw [hd]
        exact List.mem_cons_of_mem _ hr
      exact (List.dropWhile_sublist _).mem h3
    · rw [if_neg hc] at h
      exact Option.noConfusion h

lemma parseHeaderTitle_eq_none_of_no_colon {s : String} (h : ':' ∉ s.data) :
    parseHeaderTitle s = none := by
  unfold parseHeaderTitle
  cases hscan : lazyScan matchDashTail [] s.data with
  | none => rfl
  | some res =>
    exfalso
    obtain ⟨q, b, hq, hb⟩ := lazyScan_some_imp matchDashTail s.data [] res hscan
    exact h (hq.mem (matchDashTail_some_colon hb))

/-- Claim C3: `_parse_header_info` raises the fatal error exactly when the
document has no primary heading or the heading's normalized text does not
match the header grammar; in particular any title without a `-` separator and
any title without a `:` (hence without an `N:N` score) raise the fatal format
error, and on a successful parse nothing is raised. -/
theorem C3_header_fatal_iff (doc : Option String) :
    (isError (parseHeaderInfo doc) = true ↔
      (doc = none ∨ ∃ t, doc = some t ∧ parseHeaderTitle (normalizeWs t.data).asString = none)) ∧
    (∀ t, doc = some t → '-' ∉ t.data → isError (parseHeaderInfo doc) = true) ∧
    (∀ t, doc = some t → ':' ∉ t.data → isError (parseHeaderInfo doc) = true) := by
  refine ⟨?_, ?_, ?_⟩
  · cases doc with
    | none => simp [parseHeaderInfo, isError]
    | some t =>
      cases hp : parseHeaderTitle (normalizeWs t.data).asString with
      | none =>
        constructor
        · intro _
          exact Or.inr ⟨t, rfl, hp⟩
        · intro _
          simp [parseHeaderInfo, isError, hp]
      | some h =>
        constructor
        · intro hfalse
          simp [parseHeaderInfo, isError, hp] at hfalse
        · intro habs
          rcases habs with h1 | ⟨t2, ht2, hp2⟩
          · exact Option.noConfusion h1
          · injection ht2 with h3
            subst h3
            rw [hp] at hp2
            exact Option.noConfusion hp2
  · intro t hdoc hdash
    subst hdoc
    have hnone : parseHeaderTitle (normalizeWs t.data).asString = none := by
      apply parseHeaderTitle_eq_none_of_no_dash
      rw [data_asString]
      intro hmem
      rcases normalizeWs_mem hmem with h1 | h2
      · exact hdash h1
      · exact absurd h2 (by decide)
    simp [parseHeaderInfo, isError, hnone]
  · intro t hdoc hcolon
    subst hdoc
    have hnone : parseHeaderTitle (normalizeWs t.data).asString = none := by
      apply parseHeaderTitle_eq_none_of_no_colon
      rw [data_asString]
      intro hmem
      rcases normalizeWs_mem hmem with h1 | h2
      · exact hcolon h1
      · exact absurd h2 (by decide)
    simp [parseHeaderInfo, isError, hnone]

/-- Witness: `C3_header_fatal_iff` on the concrete dash-less title
"NK A NK B 4:3, cup", which the parser rejects fatally. -/
theorem C3_header_fatal_iff_witness :
    isError (parseHeaderInfo (some "NK A NK B 4:3, cup")) = true :=
  (C3_header_fatal_iff (some "NK A NK B 4:3, cup")).2.1 _ rfl (by decide)

/-!
## Claim C4: the goals-block token scanner

`_parse_goals_block` (src/demo_scraper.py lines 150-164) runs a two-state
scanner over the collected candidate strings: a token fully matching
`(\d+)'` together with a pending name emits a `GoalEvent` (with `team` empty)
and clears the pending name; any other token that is not a minute marker and
does not start with "Suci" becomes the new pending name.
-/

/-- A goal event (src/demo_scraper.py lines 11-15). -/
structure GoalEvent where
  team : String
  player : String
  minute : Nat
deriving DecidableEq, Repr

/-- `GOAL_MINUTE_RE.fullmatch(token)` for `GOAL_MINUTE_RE = re.compile(r"(\d+)'")`
(src/demo_scraper.py line 49): the whole token is one or more digits followed
by an apostrophe; yields the minute value on a match. -/
def minuteToken? (t : String) : Option Nat :=
  if (t.data.takeWhile Char.isDigit).isEmpty then none
  else if t.data.dropWhile Char.isDigit = [apos] then
    some (digitsVal (t.data.takeWhile Char.isDigit))
  else none

/-- Python `token.startswith(p)`. -/
def pyStartsWith (t p : String) : Bool := p.data.isPrefixOf t.data

/-- One iteration of the token loop of `_parse_goals_block`
(src/demo_scraper.py lines 152-160): the state is the pending scorer name
(`last_name`) together with the goal events emitted so far. -/
def goalScanStep (st : Option String × List GoalEvent) (token : String) :
    Option String × List GoalEvent :=
  match minuteToken? token, st.1 with
  | some minute, some name =>
    (none, st.2 ++ [{ team := "", player := name, minute := minute }])
  | m, _ =>
    if m.isNone && !(pyStartsWith token "Suci") then (some token, st.2) else st

/-- The token-scanner portion of `_parse_goals_block`
(src/demo_scraper.py lines 150-164) on the collected candidate tokens. -/
def parseGoalTokens (tokens : List String) : List GoalEvent :=
  (tokens.foldl goalScanStep (none, [])).2

/-- Claim C4: on the token sequence `["Suci:", "X", "Bruno Berković", "14'",
"Goran Rubeša", "27'"]` the scanner emits exactly the goal events
(Bruno Berković, 14) and (Goran Rubeša, 27) in that order, each with `team`
empty; and for every state and token, whenever a step emits an event the
pending scorer slot comes out cleared (`none`), so no candidate name is ever
used for more than one emitted minute token. -/
theorem C4_goals_scanner :
    parseGoalTokens ["Suci:", "X", "Bruno Berković",
        String.mk ['1', '4', apos], "Goran Rubeša", String.mk ['2', '7', apos]] =
      [{ team := "", player := "Bruno Berković", minute := 14 },
       { team := "", player := "Goran Rubeša", minute := 27 }] ∧
    (∀ st tok, (goalScanStep st tok).2 ≠ st.2 →
      (goalScanStep st tok).1 = none ∧
      ∃ name minute, st.1 = some name ∧ minuteToken? tok = some minute ∧
        (goalScanStep st tok).2 = st.2 ++ [{ team := "", player := name, minute := minute }]) := by
  constructor
  · decide
  · intro st tok hne
    cases hm : minuteToken? tok with
    | some minute =>
      cases hl : st.1 with
      | some name =>
        refine ⟨?_, name, minute, rfl, rfl, ?_⟩ <;> simp [goalScanStep, hm, hl]
      | none =>
        exfalso
        apply hne
        simp [goalScanStep, hm, hl]
    | none =>
      exfalso
      apply hne
      by_cases hs : pyStartsWith tok "Suci" = true
      · simp [goalScanStep, hm, hs]
      · simp [goalScanStep, hm, hs]

/-- Witness: a scanner step with pending scorer "X" on the minute token "5'"
emits an event and clears the pending slot. -/
theorem C4_goals_scanner_witness :
    (goalScanStep (some "X", []) (String.mk ['5', apos])).1 = none :=
  ((C4_goals_scanner.2 (some "X", []) (String.mk ['5', apos])) (by decide)).1

/-!
## Claim C5: goal-team assembly (`_attach_goal_teams`)

`_attach_goal_teams` (src/demo_scraper.py lines 285-297) builds a
name-to-team map with `dict.setdefault` over the lineups in insertion order
(home first, as built by `scrape_match`), then assigns every goal the mapped
team or the sentinel "Unknown".  Insertion-ordered Python dicts are modelled
as association lists with first-match lookup.
-/

/-- A per-player event (src/demo_scraper.py lines 18-21). -/
structure PlayerEvent where
  minute : Nat
  raw : String
deriving DecidableEq, Repr

/-- A lineup entry (src/demo_scraper.py lines 24-31). -/
structure PlayerInfo where
  name : String
  shirt_number : Option Nat
  position : Option String
  is_captain : Bool
  is_starting : Bool
  events : List PlayerEvent
deriving DecidableEq, Repr

/-- First-match lookup in an insertion-ordered association list (Python dict
lookup). -/
def assocLookup {α : Type} : List (String × α) → String → Option α
  | [], _ => none
  | kv :: t, key => if kv.1 = key then some kv.2 else assocLookup t key

/-- Python `dict.setdefault(k, v)`: insert at the end only if `k` is absent. -/
def setdefault {α : Type} (m : List (String × α)) (k : String) (v : α) : List (String × α) :=
  if (assocLookup m k).isSome then m else m ++ [(k, v)]

/-- The `player_to_team` map of `_attach_goal_teams`
(src/demo_scraper.py lines 288-291): for each team in lineup order, register
every player name with `setdefault`, so the first team to register a name
wins. -/
def buildPlayerToTeam (lineups : List (String × List PlayerInfo)) : List (String × String) :=
  lineups.foldl (fun m tp => tp.2.foldl (fun m2 p => setdefault m2 p.name tp.1) m) []

/-- `_attach_goal_teams` (src/demo_scraper.py lines 293-297): give every goal
the team of its scorer, or "Unknown" when the scorer is in no roster.  The
Python code mutates the events in place; the model returns the updated list. -/
def attachGoalTeams (goals : List GoalEvent) (lineups : List (String × List PlayerInfo)) :
    List GoalEvent :=
  goals.map (fun g =>
    { g with team := (assocLookup (buildPlayerToTeam lineups) g.player).getD "Unknown" })

lemma assocLookup_append {α : Type} (m1 m2 : List (String × α)) (k : String) :
    assocLookup (m1 ++ m2) k =
      match assocLookup m1 k with
      | some v => some v
      | none => assocLookup m2 k := by
  induction m1 with
  | nil => rfl
  | cons kv t ih =>
    by_cases h : kv.1 = k
    · simp [assocLookup, h]
    · simp [assocLookup, h, ih]

lemma lookup_setdefault_fold {α : Type} (team : α) :
    ∀ (ps : List PlayerInfo) (m : List (String × α)) (k : String),
      assocLookup (ps.foldl (fun m2 p => setdefault m2 p.name team) m) k =
        match assocLookup m k with
        | some v => some v
        | none => if k ∈ ps.map (fun p => p.name) then some team else none := by
  intro ps
  induction ps with
  | nil =>
    intro m k
    cases h : assocLookup m k <;> simp [h]
  | cons p t ih =>
    intro m k
    rw [List.foldl_cons, ih]
    cases hk : assocLookup m k with
    | some v =>
      have h1 : assocLookup (setdefault m p.name team) k = some v := by
        unfold setdefault
        by_cases hp : (assocLookup m p.name).isSome
        · rw [if_pos hp]; exact hk
        · rw [if_neg hp, assocLookup_append, hk]
      rw [h1]
    | none =>
      by_cases hkp : k = p.name
      · subst hkp
        have hp : ¬ (assocLookup m p.name).isSome = true := by simp [hk]
        have h1 : assocLookup (setdefault m p.name team) p.name = some team := by
          unfold setdefault
          rw [if_neg hp, assocLookup_append, hk]
          simp [assocLookup]
        rw [h1]
        simp
      · have h1 : assocLookup (setdefault m p.name team) k = none := by
          unfold setdefault
          by_cases hp : (assocLookup m p.name).isSome
          · rw [if_pos hp]; exact hk
          · rw [if_neg hp, assocLookup_append, hk]
            simp [assocLookup, Ne.symm hkp]
        rw [h1]
        simp [List.mem_cons, hkp]

lemma lookup_buildPlayerToTeam (home away : String) (ps1 ps2 : List PlayerInfo) (k : String) :
    assocLookup (buildPlayerToTeam [(home, ps1), (away, ps2)]) k =
      if k ∈ ps1.map (fun p => p.name) then some home
      else if k ∈ ps2.map (fun p => p.name) then some away
      else none := by
  unfold buildPlayerToTeam
  rw [List.foldl_cons, List.foldl_cons, List.foldl_nil,
    lookup_setdefault_fold, lookup_setdefault_fold]
  by_cases h1 : k ∈ ps1.map (fun p => p.name)
  · simp [assocLookup, h1]
  · by_cases h2 : k ∈ ps2.map (fun p => p.name)
    · simp [assocLookup, h1, h2]
    · simp [assocLookup, h1, h2]

/-- Claim C5: after `_attach_goal_teams` runs on goals and a lineups mapping
whose keys are the home and away team names, every goal's team is one of the
two team names or the sentinel "Unknown"; a scorer whose name appears in some
roster gets the team that registered the name first (home roster before away
roster), and a scorer absent from every roster gets "Unknown". -/
theorem C5_attach_goal_teams (home away : String) (ps1 ps2 : List PlayerInfo)
    (goals : List GoalEvent) (hne : ¬ (home = away)) :
    attachGoalTeams goals [(home, ps1), (away, ps2)] =
      goals.map (fun g =>
        { g with team :=
            if g.player ∈ ps1.map (fun p => p.name) then home
            else if g.player ∈ ps2.map (fun p => p.name) then away
            else "Unknown" }) ∧
    ∀ g ∈ attachGoalTeams goals [(home, ps1), (away, ps2)],
      g.team = home ∨ g.team = away ∨ g.team = "Unknown" := by
  have hmap : ∀ g : GoalEvent,
      (assocLookup (buildPlayerToTeam [(home, ps1), (away, ps2)]) g.player).getD "Unknown" =
        if g.player ∈ ps1.map (fun p => p.name) then home
        else if g.player ∈ ps2.map (fun p => p.name) then away
        else "Unknown" := by
    intro g
    rw [lookup_buildPlayerToTeam]
    by_cases h1 : g.player ∈ ps1.map (fun p => p.name)
    · simp [h1]
    · by_cases h2 : g.player ∈ ps2.map (fun p => p.name)
      · simp [h1, h2]
      · simp [h1, h2]
  constructor
  · unfold attachGoalTeams
    exact List.map_congr_left (fun g _ => by rw [hmap g])
  · intro g hg
    unfold attachGoalTeams at hg
    obtain ⟨g0, hg0, rfl⟩ := List.mem_map.mp hg
    rw [hmap g0]
    by_cases h1 : g0.player ∈ ps1.map (fun p => p.name)
    · simp [h1]
    · by_cases h2 : g0.player ∈ ps2.map (fun p => p.name)
      · simp [h1, h2]
      · simp [h1, h2]

/-- Witness: `C5_attach_goal_teams` on one goal by "P", who is on the home
roster "H", so the goal is attributed to "H". -/
theorem C5_attach_goal_teams_witness :
    attachGoalTeams [{ team := "", player := "P", minute := 3 }]
      [("H", [{ name := "P", shirt_number := none, position := none, is_captain := false,
                is_starting := true, events := [] }]),
       ("A", [])] = [{ team := "H", player := "P", minute := 3 }] := by
  have h := (C5_attach_goal_teams "H" "A"
    [{ name := "P", shirt_number := none, position := none, is_captain := false,
       is_starting := true, events := [] }] []
    [{ team := "", player := "P", minute := 3 }] (by decide)).1
  rw [h]
  decide

/-!
## Claim C2: `scrape_match` after a successful header parse

`scrape_match` (src/demo_scraper.py lines 300-344) composes the
sub-extractors after `_parse_header_info`.  Between building the lineups dict
and the length-guarded assignments it executes the debug statement
`print(f"Home team block: {team_blocks[0]}")` (line 317), which indexes
`team_blocks` unconditionally: when `_iterate_team_blocks` found no team
blocks this raises `IndexError` before the guards `len(team_blocks) >= 1` and
`>= 2` are reached.  Team blocks are represented below by their parsed player
lists; the print only reads the indexed element.
-/

/-- The record returned by `scrape_match` (src/demo_scraper.py lines 34-46);
the kickoff timestamp produced by the external `datetime` collaborator is
kept abstract in `δ`. -/
structure MatchData (δ : Type) where
  url : String
  competition : Option String
  home_team : String
  away_team : String
  home_score : Nat
  away_score : Nat
  venue : Option String
  city : Option String
  date_time : Option δ
  goals : List GoalEvent
  lineups : List (String × List PlayerInfo)
deriving DecidableEq

/-- Python dict assignment `d[k] = v`: overwrite in place when the key exists,
else append. -/
def dictAssign {α : Type} : List (String × α) → String → α → List (String × α)
  | [], k, v => [(k, v)]
  | kv :: t, k, v => if kv.1 = k then (k, v) :: t else kv :: dictAssign t k v

/-- The tail of `scrape_match` (src/demo_scraper.py lines 311-344) given the
header, the date/venue results, the goal events and the located team blocks:
build the initial lineups dict, run the debug print indexing `team_blocks[0]`
(`Except.error` models the `IndexError` on an empty list), fill the lineups
behind the length guards, attach goal teams, and assemble the `MatchData`. -/
def scrapeMatchPost {δ : Type} (url : String) (header : HeaderInfo)
    (venue city : Option String) (dt : Option δ) (goals : List GoalEvent)
    (teamBlocks : List (List PlayerInfo)) : Except String (MatchData δ) :=
  let lineups0 := dictAssign (dictAssign [] header.home_team []) header.away_team []
  match teamBlocks with
  | [] => Except.error "IndexError: list index out of range"
  | b0 :: restBlocks =>
    let lineups1 := dictAssign lineups0 header.home_team b0
    let lineups2 :=
      match restBlocks with
      | [] => lineups1
      | b1 :: _ => dictAssign lineups1 header.away_team b1
    Except.ok
      { url := url, competition := some header.competition,
        home_team := header.home_team, away_team := header.away_team,
        home_score := header.home_score, away_score := header.away_score,
        venue := venue, city := city, date_time := dt,
        goals := attachGoalTeams goals lineups2, lineups := lineups2 }

/-- Claim C2 (code bug): on a document whose header parses
("NK A - NK B 1:0, Liga") but in which `_iterate_team_blocks` finds no team
blocks, `scrape_match` raises `IndexError` at the debug print
`team_blocks[0]` (src/demo_scraper.py line 317) instead of degrading to empty
lineups as the length guards right below it intend. -/
theorem C2_scrape_match_raises :
    parseHeaderInfo (some "NK A - NK B 1:0, Liga") =
      Except.ok { home_team := "NK A", away_team := "NK B", home_score := 1,
                  away_score := 0, competition := "Liga" } ∧
    @scrapeMatchPost Nat "u"
        { home_team := "NK A", away_team := "NK B", home_score := 1,
          away_score := 0, competition := "Liga" }
        none none none [] [] = Except.error "IndexError: list index out of range" := by
  constructor
  · rfl
  · rfl

/-!
## Claims C6 and C7: `parse_standings` (src/scraper.py lines 182-224)
-/

/-- Python `int(s)` on a string: strip whitespace, optional sign, then a
non-empty all-digit run (underscore digit separators of Python's grammar are
not modelled); `none` models the `ValueError`. -/
def pyInt (s : String) : Option Int :=
  match pyStrip s.data with
  | '+' :: ds => if !ds.isEmpty && ds.all Char.isDigit then some (digitsVal ds) else none
  | '-' :: ds => if !ds.isEmpty && ds.all Char.isDigit then some (-(digitsVal ds : Int)) else none
  | ds => if !ds.isEmpty && ds.all Char.isDigit then some (digitsVal ds) else none

/-- A standings row (src/scraper.py lines 211-221). -/
structure StandingsRow where
  position : Int
  team : String
  played : Nat
  wins : Nat
  draws : Nat
  losses : Nat
  goals_for : Nat
  goals_against : Nat
  points : Nat
deriving DecidableEq, Repr

/-- Python `s.isdigit()` on a `String` (ASCII model). -/
def pyIsDigitStr (s : String) : Bool := pyIsDigit s.data

/-- Value of the cell in column `i` as used for columns 2-7 of a standings
row: `int(tds[i]) if len(tds) > i and tds[i].isdigit() else 0`
(src/scraper.py lines 204-209). -/
def numCell (tds : List String) (i : Nat) : Nat :=
  if h : i < tds.length then
    (if pyIsDigitStr (tds.get ⟨i, h⟩) then digitsVal (tds.get ⟨i, h⟩).data else 0)
  else 0

/-- One `<tr>` of `parse_standings` (src/scraper.py lines 193-223): `none`
models the `continue` on an empty row as well as the `except: continue` that
swallows the `ValueError` of `int(tds[0])` and the `IndexError` of
`tr.find_all("td")[1]` on a one-cell row; the points column is the last cell,
defaulted to 0 when not all digits. -/
def parseStandingsRow (tds : List String) : Option StandingsRow :=
  match tds with
  | [] => none
  | t0 :: rest =>
    match pyInt t0 with
    | none => none
    | some pos =>
      match rest with
      | [] => none
      | t1 :: _ =>
        some { position := pos, team := t1,
               played := numCell (t0 :: rest) 2, wins := numCell (t0 :: rest) 3,
               draws := numCell (t0 :: rest) 4, losses := numCell (t0 :: rest) 5,
               goals_for := numCell (t0 :: rest) 6, goals_against := numCell (t0 :: rest) 7,
               points := if pyIsDigitStr ((t0 :: rest).getLastD "") then
                   digitsVal ((t0 :: rest).getLastD "").data else 0 }

/-- Containment of `pat` as a contiguous substring (Python `x in y`). -/
def containsSeq (pat : List Char) : List Char → Bool
  | [] => pat.isEmpty
  | c :: t => pat.isPrefixOf (c :: t) || containsSeq pat t

/-- The standings-table gate (src/scraper.py lines 190-191): the lowercased,
space-joined header cell texts must contain "poz", "klub" or "bod"
(lowercasing modelled on ASCII). -/
def standingsHeaderGate (headers : List String) : Bool :=
  let joined := (String.intercalate " " (headers.map (fun h => (h.data.map Char.toLower).asString))).data
  containsSeq "poz".data joined || containsSeq "klub".data joined || containsSeq "bod".data joined

/-- `parse_standings` restricted to a single table (src/scraper.py lines
188-223): when the header gate passes, parse each row positionally, skipping
rows that fail. -/
def parseStandingsTable (headers : List String) (rows : List (List String)) :
    List StandingsRow :=
  if standingsHeaderGate headers then rows.filterMap parseStandingsRow else []

/-- `parse_standings` (src/scraper.py lines 182-224): rows of every gated
table of the document are appended into one result list. -/
def parseStandings (tables : List (List String × List (List String))) : List StandingsRow :=
  tables.foldl (fun acc t => acc ++ parseStandingsTable t.1 t.2) []

/-- Claim C7: the row `["1","FC Example","10","7","2","1","20","5","23"]` maps
to position 1, team "FC Example", played 10, wins 7, draws 2, losses 1,
goals for 20, goals against 5, points 23; a non-numeric `played` cell yields
the same record with played = 0 instead of dropping the row; and a row whose
position cell fails `int()` is skipped silently without affecting the other
rows of its table. -/
theorem C7_standings_row :
    parseStandingsRow ["1", "FC Example", "10", "7", "2", "1", "20", "5", "23"] =
      some { position := 1, team := "FC Example", played := 10, wins := 7, draws := 2,
             losses := 1, goals_for := 20, goals_against := 5, points := 23 } ∧
    parseStandingsRow ["1", "FC Example", "xx", "7", "2", "1", "20", "5", "23"] =
      some { position := 1, team := "FC Example", played := 0, wins := 7, draws := 2,
             losses := 1, goals_for := 20, goals_against := 5, points := 23 } ∧
    (∀ headers pre post r, (∀ t0 rest, r = t0 :: rest → pyInt t0 = none) →
      parseStandingsTable headers (pre ++ r :: post) =
        parseStandingsTable headers (pre ++ post)) := by
  refine ⟨by decide, by decide, ?_⟩
  intro headers pre post r hr
  have hnone : parseStandingsRow r = none := by
    cases r with
    | nil => rfl
    | cons t0 rest => simp [parseStandingsRow, hr t0 rest rfl]
  unfold parseStandingsTable
  by_cases hg : standingsHeaderGate headers = true
  · rw [if_pos hg, if_pos hg, List.filterMap_append, List.filterMap_append,
      List.filterMap_cons, hnone]
  · rw [if_neg hg, if_neg hg]

/-- Witness: `C7_standings_row` skipping the bad-position row ["x","B"] leaves
the surrounding rows untouched. -/
theorem C7_standings_row_witness :
    parseStandingsTable ["poz."] [["1", "A"], ["x", "B"], ["2", "C"]] =
      parseStandingsTable ["poz."] [["1", "A"], ["2", "C"]] :=
  C7_standings_row.2.2 ["poz."] [["1", "A"]] [["2", "C"]] ["x", "B"]
    (fun t0 rest h => by
      injection h with h1 h2
      subst h1
      decide)

/-- Claim C6 counterexample: a standings table whose two rows both carry "1"
in the first cell yields two rows with position 1 — `parse_standings` copies
the position out of the cell rather than assigning it, so positions are
neither pairwise distinct nor monotonically assigned. -/
theorem C6_counterexample :
    (parseStandingsTable ["poz."] [["1", "A"], ["1", "B"]]).map (fun r => r.position)
      = [1, 1] ∧
    ¬ List.Pairwise (fun a b => ¬ (a = b))
        ((parseStandingsTable ["poz."] [["1", "A"], ["1", "B"]]).map (fun r => r.position)) := by
  constructor
  · decide
  · decide

/-- Claim C6 (amended): within a single table, `StandingsRow.position` is the
integer parsed from the row's first cell, taken in table row order, not a
monotonically assigned counter; consequently the produced positions are
pairwise distinct whenever the successfully parsed first cells of the table's
rows are pairwise distinct. -/
theorem C6_positions_from_cells (headers : List String) (rows : List (List String))
    (hdistinct : List.Pairwise (fun a b => ¬ (a = b))
      (rows.filterMap (fun r => Option.bind r.head? (fun t0 => pyInt t0)))) :
    (∀ r sr, parseStandingsRow r = some sr →
      (Option.bind r.head? (fun t0 => pyInt t0)) = some sr.position) ∧
    List.Pairwise (fun a b => ¬ (a = b))
      ((parseStandingsTable headers rows).map (fun r => r.position)) := by
  have hpos : ∀ r sr, parseStandingsRow r = some sr →
      (Option.bind r.head? (fun t0 => pyInt t0)) = some sr.position := by
    intro r sr h
    cases r with
    | nil => exact Option.noConfusion h
    | cons t0 rest =>
      simp only [parseStandingsRow] at h
      cases hp : pyInt t0 with
      | none =>
        rw [hp] at h
        exact Option.noConfusion h
      | some pos =>
        rw [hp] at h
        cases rest with
        | nil => exact Option.noConfusion h
        | cons t1 r2 =>
          simp only at h
          injection h with h1
          subst h1
          simp [hp]
  refine ⟨hpos, ?_⟩
  unfold parseStandingsTable
  by_cases hg : standingsHeaderGate headers = true
  · rw [if_pos hg]
    have hsub : ((rows.filterMap parseStandingsRow).map (fun r => r.position)).Sublist
        (rows.filterMap (fun r => Option.bind r.head? (fun t0 => pyInt t0))) := by
      clear hdistinct
      induction rows with
      | nil => simp
      | cons r t ih =>
        cases hr : parseStandingsRow r with
        | none =>
          cases hro : (Option.bind r.head? (fun t0 => pyInt t0)) with
          | none => simpa [List.filterMap_cons, hr, hro] using ih
          | some v =>
            simp only [List.filterMap_cons, hr, hro]
            exact List.Sublist.cons _ ih
        | some sr =>
          have hq := hpos r sr hr
          simp only [List.filterMap_cons, hr, hq, List.map_cons]
          exact List.Sublist.cons₂ _ ih
    exact hdistinct.sublist hsub
  · rw [if_neg hg]
    simp

/-- Witness: `C6_positions_from_cells` on a table with distinct first cells
"1" and "2" yields pairwise-distinct positions. -/
theorem C6_positions_from_cells_witness :
    List.Pairwise (fun a b => ¬ (a = b))
      ((parseStandingsTable ["poz."] [["1", "A"], ["2", "B"]]).map (fun r => r.position)) :=
  (C6_positions_from_cells ["poz."] [["1", "A"], ["2", "B"]] (by decide)).2

/-!
## Claim C8: `parse_teams` (src/scraper.py lines 66-97)

The anchor loop stores candidates in a Python dict keyed by visible link
text with a plain assignment `teams[text] = {...}` (line 87), so a later
anchor with the same text overwrites the stored url/crest/id while keeping
the entry's position; `list(teams.values())` returns the entries in key
insertion order.
-/

/-- An `<a href=...>` element as `parse_teams` sees it: the link target, the
visible text (`get_text(" ", strip=True)`), and the `src` of an `<img>`
inside the link when one is present. -/
structure Anchor where
  href : String
  text : String
  imgSrc : Option String
deriving DecidableEq, Repr

/-- A team entry (src/scraper.py line 87, and line 96 for the fallback). -/
structure TeamInfo where
  name : String
  url : Option String
  crest : Option String
  hns_id : Option String
deriving DecidableEq, Repr

/-- Lowercasing for the case-insensitive team-link regex: ASCII `toLower`
plus the one non-ASCII letter appearing in the pattern. -/
def pyLower (c : Char) : Char :=
  if c = 'Š' then 'š' else c.toLower

/-- The team-link gate of `parse_teams` (src/scraper.py line 80):
`re.search(r"/klub|^NK |^HNK |^ONK |^BŠK |^GNK |^NK ", text, re.I)` — the
text contains "/klub" or starts with a club prefix, case-insensitively — or
`re.search(r"/klub", href)`, case-sensitively. -/
def anchorGate (a : Anchor) : Bool :=
  containsSeq "/klub".data (a.text.data.map pyLower) ||
  "nk ".data.isPrefixOf (a.text.data.map pyLower) ||
  "hnk ".data.isPrefixOf (a.text.data.map pyLower) ||
  "onk ".data.isPrefixOf (a.text.data.map pyLower) ||
  "bšk ".data.isPrefixOf (a.text.data.map pyLower) ||
  "gnk ".data.isPrefixOf (a.text.data.map pyLower) ||
  containsSeq "/klub".data a.href.data

/-- Whether the anchor loop registers this anchor: non-empty visible text and
a passing gate (src/scraper.py lines 77-80). -/
def anchorPass (a : Anchor) : Bool :=
  if a.text = "" then false else anchorGate a

/-- The `/klub/(\d+)` capture when the pattern matches at the start of `cs`. -/
def klubDigitsAt (cs : List Char) : Option (List Char) :=
  if "/klub/".data.isPrefixOf cs then
    (if ((cs.drop 6).takeWhile Char.isDigit).isEmpty then none
     else some ((cs.drop 6).takeWhile Char.isDigit))
  else none

/-- `re.search(r"/klub/(\d+)", href)` (src/scraper.py line 85): at the
leftmost position where "/klub/" is followed by at least one digit, capture
the maximal digit run. -/
def searchKlubId : List Char → Option (List Char)
  | [] => none
  | c :: rest =>
    match klubDigitsAt (c :: rest) with
    | some ds => some ds
    | none => searchKlubId rest

/-- The team entry built from a matching anchor (src/scraper.py lines 81-87);
`join` is the external `urljoin` collaborator already applied to the page's
base url.  `hns_id` falls back to the raw link path when no numeric id is
found. -/
def buildTeamEntry (join : String → String) (a : Anchor) : TeamInfo :=
  { name := a.text, url := some (join a.href),
    crest := a.imgSrc.map join,
    hns_id := some (match searchKlubId a.href.data with
                    | some ds => ds.asString
                    | none => a.href) }

/-- One iteration of the anchor loop of `parse_teams`
(src/scraper.py lines 74-87). -/
def teamStep (join : String → String) (m : List (String × TeamInfo)) (a : Anchor) :
    List (String × TeamInfo) :=
  if anchorPass a then dictAssign m a.text (buildTeamEntry join a) else m

/-- The anchor loop of `parse_teams`: an insertion-ordered dict from visible
text to entry. -/
def parseTeamsAnchors (join : String → String) (anchors : List Anchor) :
    List (String × TeamInfo) :=
  anchors.foldl (teamStep join) []

/-- The word-boundary club-prefix test of the fallback
(`re.match(r"^(NK|HNK|ONK|BŠK|GNK)\b", txt)`, src/scraper.py line 93); word
characters are modelled as ASCII alphanumerics plus underscore. -/
def clubPrefixMatch (t : String) : Bool :=
  ["NK", "HNK", "ONK", "BŠK", "GNK"].any (fun p =>
    p.data.isPrefixOf t.data &&
    (match t.data.drop p.length with
     | [] => true
     | c :: _ => !(c.isAlphanum || c = '_')))

/-- `parse_teams` (src/scraper.py lines 66-97).  `containerTexts` are the
texts of the `div`/`li`/`span` elements scanned by the fallback; the fallback
collects matching texts into a Python `set` (iteration order unspecified),
modelled here in first-occurrence order after deduplication. -/
def parseTeams (join : String → String) (anchors : List Anchor)
    (containerTexts : List String) : List TeamInfo :=
  let m := parseTeamsAnchors join anchors
  if m.isEmpty then
    ((containerTexts.filter clubPrefixMatch).dedup).map
      (fun t => { name := t, url := none, crest := none, hns_id := none })
  else m.map (fun kv => kv.2)

/-- One step of tracking the last anchor that passes the gate with visible
text `k` (the entry that survives the dict overwrites). -/
def lastStep (k : String) (acc : Option Anchor) (a : Anchor) : Option Anchor :=
  if anchorPass a && decide (a.text = k) then some a else acc

/-- The last anchor in document order with visible text `k` that passes the
team gate. -/
def lastMatchingAnchor (anchors : List Anchor) (k : String) : Option Anchor :=
  anchors.foldl (lastStep k) none

/-- Keys of an association list, in order. -/
def keysOf {α : Type} (m : List (String × α)) : List String := m.map (fun kv => kv.1)

lemma keysOf_cons {α : Type} (kv : String × α) (t : List (String × α)) :
    keysOf (kv :: t) = kv.1 :: keysOf t := rfl

lemma dictAssign_ne_nil {α : Type} (m : List (String × α)) (k : String) (v : α) :
    dictAssign m k v ≠ [] := by
  cases m with
  | nil => simp [dictAssign]
  | cons kv t => by_cases h : kv.1 = k <;> simp [dictAssign, h]

lemma lookup_dictAssign {α : Type} :
    ∀ (m : List (String × α)) (k k2 : String) (v : α),
    assocLookup (dictAssign m k v) k2 = if k = k2 then some v else assocLookup m k2 := by
  intro m
  induction m with
  | nil =>
    intro k k2 v
    by_cases h : k = k2 <;> simp [dictAssign, assocLookup, h]
  | cons kv t ih =>
    intro k k2 v
    by_cases h1 : kv.1 = k
    · rw [show dictAssign (kv :: t) k v = (k, v) :: t from by simp [dictAssign, h1]]
      by_cases h2 : k = k2
      · simp [assocLookup, h2]
      · have h3 : ¬ (kv.1 = k2) := by rw [h1]; exact h2
        simp [assocLookup, h2, h3]
    · rw [show dictAssign (kv :: t) k v = kv :: dictAssign t k v from by simp [dictAssign, h1]]
      by_cases h4 : kv.1 = k2
      · have h5 : ¬ (k = k2) := fun he => h1 (by rw [he]; exact h4)
        simp [assocLookup, h4, h5]
      · simp [assocLookup, h4, ih]

lemma keysOf_dictAssign {α : Type} :
    ∀ (m : List (String × α)) (k : String) (v : α),
    keysOf (dictAssign m k v) = if k ∈ keysOf m then keysOf m else keysOf m ++ [k] := by
  intro m
  induction m with
  | nil => intro k v; simp [dictAssign, keysOf]
  | cons kv t ih =>
    intro k v
    by_cases h1 : kv.1 = k
    · rw [show dictAssign (kv :: t) k v = (k, v) :: t from by simp [dictAssign, h1]]
      have h2 : k ∈ keysOf (kv :: t) := by
        rw [keysOf_cons, h1]
        exact List.mem_cons_self _ _
      rw [if_pos h2, keysOf_cons, keysOf_cons, h1]
    · rw [show dictAssign (kv :: t) k v = kv :: dictAssign t k v from by simp [dictAssign, h1]]
      rw [keysOf_cons, keysOf_cons, ih]
      by_cases h2 : k ∈ keysOf t
      · have h3 : k ∈ kv.1 :: keysOf t := List.mem_cons_of_mem _ h2
        rw [if_pos h2, if_pos h3]
      · have h3 : ¬ (k ∈ kv.1 :: keysOf t) := by
          intro hmem
          rcases List.mem_cons.mp hmem with he | hm
          · exact h1 he.symm
          · exact h2 hm
        rw [if_neg h2, if_neg h3]
        rfl

lemma nodup_keys_dictAssign {α : Type} (m : List (String × α)) (k : String) (v : α)
    (h : (keysOf m).Nodup) : (keysOf (dictAssign m k v)).Nodup := by
  rw [keysOf_dictAssign]
  by_cases h2 : k ∈ keysOf m
  · rw [if_pos h2]; exact h
  · rw [if_neg h2]
    rw [List.nodup_append]
    exact ⟨h, List.nodup_singleton k, fun a ha hb => h2 ((List.mem_singleton.mp hb) ▸ ha)⟩

lemma mem_keysOf_dictAssign {α : Type} (m : List (String × α)) (k k2 : String) (v : α)
    (h : k2 ∈ keysOf m) : k2 ∈ keysOf (dictAssign m k v) := by
  rw [keysOf_dictAssign]
  by_cases h2 : k ∈ keysOf m
  · rw [if_pos h2]; exact h
  · rw [if_neg h2]; exact List.mem_append_left _ h

lemma self_mem_keysOf_dictAssign {α : Type} (m : List (String × α)) (k : String) (v : α) :
    k ∈ keysOf (dictAssign m k v) := by
  rw [keysOf_dictAssign]
  by_cases h2 : k ∈ keysOf m
  · rw [if_pos h2]; exact h2
  · rw [if_neg h2]; exact List.mem_append_right _ (List.mem_singleton.mpr rfl)

lemma mem_dictAssign {α : Type} :
    ∀ (m : List (String × α)) (k : String) (v : α) (kv2 : String × α),
    kv2 ∈ dictAssign m k v → kv2 ∈ m ∨ kv2 = (k, v) := by
  intro m
  induction m with
  | nil =>
    intro k v kv2 h
    simp only [dictAssign] at h
    exact Or.inr (List.mem_singleton.mp h)
  | cons kv t ih =>
    intro k v kv2 h
    by_cases h1 : kv.1 = k
    · rw [show dictAssign (kv :: t) k v = (k, v) :: t from by simp [dictAssign, h1]] at h
      rcases List.mem_cons.mp h with he | hm
      · exact Or.inr he
      · exact Or.inl (List.mem_cons_of_mem _ hm)
    · rw [show dictAssign (kv :: t) k v = kv :: dictAssign t k v from by simp [dictAssign, h1]] at h
      rcases List.mem_cons.mp h with he | hm
      · exact Or.inl (he ▸ List.mem_cons_self _ _)
      · rcases ih k v kv2 hm with h2 | h3
        · exact Or.inl (List.mem_cons_of_mem _ h2)
        · exact Or.inr h3

lemma lookup_of_mem_nodup {α : Type} :
    ∀ (m : List (String × α)) (kv : String × α), kv ∈ m → (keysOf m).Nodup →
    assocLookup m kv.1 = some kv.2 := by
  intro m
  induction m with
  | nil => intro kv h _; exact absurd h (List.not_mem_nil kv)
  | cons kv0 t ih =>
    intro kv h hnd
    rw [keysOf_cons] at hnd
    rcases List.mem_cons.mp h with he | hm
    · rw [he]
      simp [assocLookup]
    · have h1 : kv.1 ∈ keysOf t := List.mem_map.mpr ⟨kv, hm, rfl⟩
      have h2 : ¬ (kv0.1 = kv.1) := fun he2 => (List.nodup_cons.mp hnd).1 (he2 ▸ h1)
      rw [show assocLookup (kv0 :: t) kv.1 = assocLookup t kv.1 from by simp [assocLookup, h2]]
      exact ih kv hm (List.nodup_cons.mp hnd).2

lemma lastMatch_override (k : String) :
    ∀ (as : List Anchor) (acc : Option Anchor),
    as.foldl (lastStep k) acc =
      match as.foldl (lastStep k) none with
      | some x => some x
      | none => acc := by
  intro as
  induction as with
  | nil => intro acc; rfl
  | cons a t ih =>
    intro acc
    rw [List.foldl_cons, List.foldl_cons, ih]
    conv_rhs => rw [ih]
    cases hft : t.foldl (lastStep k) none with
    | some x => simp
    | none =>
      simp only
      unfold lastStep
      by_cases hp : (anchorPass a && decide (a.text = k)) = true
      · simp [hp]
      · simp [hp]

lemma lookup_teamStep_fold (join : String → String) :
    ∀ (as : List Anchor) (m : List (String × TeamInfo)) (k : String),
    assocLookup (as.foldl (teamStep join) m) k =
      match as.foldl (lastStep k) none with
      | some a => some (buildTeamEntry join a)
      | none => assocLookup m k := by
  intro as
  induction as with
  | nil => intro m k; rfl
  | cons a t ih =>
    intro m k
    rw [List.foldl_cons, ih, List.foldl_cons, lastMatch_override k t (lastStep k none a)]
    cases hft : t.foldl (lastStep k) none with
    | some x => simp
    | none =>
      simp only
      unfold teamStep lastStep
      by_cases hp : anchorPass a = true
      · rw [if_pos hp, lookup_dictAssign]
        by_cases ht : a.text = k
        · simp [hp, ht]
        · simp [hp, ht]
      · rw [if_neg hp]
        simp [hp]

lemma teamStep_fold_keys_nodup (join : String → String) :
    ∀ (as : List Anchor) (m : List (String × TeamInfo)), (keysOf m).Nodup →
    (keysOf (as.foldl (teamStep join) m)).Nodup := by
  intro as
  induction as with
  | nil => intro m h; exact h
  | cons a t ih =>
    intro m h
    rw [List.foldl_cons]
    apply ih
    unfold teamStep
    by_cases hp : anchorPass a = true
    · rw [if_pos hp]; exact nodup_keys_dictAssign m _ _ h
    · rw [if_neg hp]; exact h

lemma teamStep_fold_name_inv (join : String → String) :
    ∀ (as : List Anchor) (m : List (String × TeamInfo)),
    (∀ kv ∈ m, kv.2.name = kv.1) →
    ∀ kv ∈ as.foldl (teamStep join) m, kv.2.name = kv.1 := by
  intro as
  induction as with
  | nil => intro m h; exact h
  | cons a t ih =>
    intro m h
    rw [List.foldl_cons]
    apply ih
    intro kv hkv
    unfold teamStep at hkv
    by_cases hp : anchorPass a = true
    · rw [if_pos hp] at hkv
      rcases mem_dictAssign m a.text (buildTeamEntry join a) kv hkv with h1 | h2
      · exact h kv h1
      · simp [h2, buildTeamEntry]
    · rw [if_neg hp] at hkv
      exact h kv hkv

lemma teamStep_fold_ne_nil (join : String → String) :
    ∀ (as : List Anchor) (m : List (String × TeamInfo)), m ≠ [] →
    as.foldl (teamStep join) m ≠ [] := by
  intro as
  induction as with
  | nil => intro m h; exact h
  | cons a t ih =>
    intro m h
    rw [List.foldl_cons]
    apply ih
    unfold teamStep
    by_cases hp : anchorPass a = true
    · rw [if_pos hp]; exact dictAssign_ne_nil m _ _
    · rw [if_neg hp]; exact h

lemma teamStep_fold_ne_nil_of_pass (join : String → String) :
    ∀ (as : List Anchor) (m : List (String × TeamInfo)) (a : Anchor),
    a ∈ as → anchorPass a = true → as.foldl (teamStep join) m ≠ [] := by
  intro as
  induction as with
  | nil => intro m a h; exact absurd h (List.not_mem_nil a)
  | cons a0 t ih =>
    intro m a hmem hp
    rw [List.foldl_cons]
    rcases List.mem_cons.mp hmem with he | hm
    · apply teamStep_fold_ne_nil
      unfold teamStep
      rw [← he, if_pos hp]
      exact dictAssign_ne_nil m _ _
    · exact ih _ a hm hp

lemma mem_keysOf_teamStep_fold (join : String → String) :
    ∀ (as : List Anchor) (m : List (String × TeamInfo)) (k : String),
    k ∈ keysOf m → k ∈ keysOf (as.foldl (teamStep join) m) := by
  intro as
  induction as with
  | nil => intro m k h; exact h
  | cons a t ih =>
    intro m k h
    rw [List.foldl_cons]
    apply ih
    unfold teamStep
    by_cases hp : anchorPass a = true
    · rw [if_pos hp]; exact mem_keysOf_dictAssign m _ _ _ h
    · rw [if_neg hp]; exact h

lemma text_mem_keysOf_teamStep_fold (join : String → String) :
    ∀ (as : List Anchor) (m : List (String × TeamInfo)) (a : Anchor),
    a ∈ as → anchorPass a = true →
    a.text ∈ keysOf (as.foldl (teamStep join) m) := by
  intro as
  induction as with
  | nil => intro m a h; exact absurd h (List.not_mem_nil a)
  | cons a0 t ih =>
    intro m a hmem hp
    rw [List.foldl_cons]
    rcases List.mem_cons.mp hmem with he | hm
    · apply mem_keysOf_teamStep_fold
      unfold teamStep
      rw [← he, if_pos hp]
      exact self_mem_keysOf_dictAssign m _ _
    · exact ih _ a hm hp

/-- Claim C8 counterexample: two anchors share the visible name "NK Foo"; the
single resulting entry carries the url and site id extracted from the SECOND
anchor ("/klub/2/b", id "2"), not the first, because `teams[text] = {...}`
overwrites the stored entry. -/
theorem C8_counterexample :
    parseTeams (fun h => h)
      [{ href := "/klub/1/a", text := "NK Foo", imgSrc := none },
       { href := "/klub/2/b", text := "NK Foo", imgSrc := none }] [] =
      [{ name := "NK Foo", url := some "/klub/2/b", crest := none, hns_id := some "2" }] ∧
    ¬ (some ("/klub/2/b" : String) = some ("/klub/1/a" : String)) := by
  constructor
  · decide
  · decide

/-- Claim C8 (amended): `parse_teams` deduplicates candidates by visible link
text with the LAST occurrence winning: when several anchors share a visible
name, the returned entry carries the url, crest and site id extracted from
the last matching anchor in document order, the result has exactly one entry
per distinct visible name, and every matching anchor's name is represented. -/
theorem C8_dedup_last_wins (join : String → String) (anchors : List Anchor)
    (containerTexts : List String) (hx : ∃ a ∈ anchors, anchorPass a = true) :
    ((parseTeams join anchors containerTexts).map (fun ti => ti.name)).Nodup ∧
    (∀ ti ∈ parseTeams join anchors containerTexts,
      ∃ a, lastMatchingAnchor anchors ti.name = some a ∧ ti = buildTeamEntry join a) ∧
    (∀ a ∈ anchors, anchorPass a = true →
      ∃ ti ∈ parseTeams join anchors containerTexts, ti.name = a.text) := by
  obtain ⟨a0, ha0mem, ha0pass⟩ := hx
  have hne : parseTeamsAnchors join anchors ≠ [] :=
    teamStep_fold_ne_nil_of_pass join anchors [] a0 ha0mem ha0pass
  have hmain : parseTeams join anchors containerTexts =
      (parseTeamsAnchors join anchors).map (fun kv => kv.2) := by
    unfold parseTeams
    rw [if_neg (by simpa using hne)]
  have hnodup : (keysOf (parseTeamsAnchors join anchors)).Nodup :=
    teamStep_fold_keys_nodup join anchors [] (by simp [keysOf])
  have hinv : ∀ kv ∈ parseTeamsAnchors join anchors, kv.2.name = kv.1 :=
    teamStep_fold_name_inv join anchors [] (by simp)
  refine ⟨?_, ?_, ?_⟩
  · rw [hmain]
    have : ((parseTeamsAnchors join anchors).map (fun kv => kv.2)).map (fun ti => ti.name)
        = keysOf (parseTeamsAnchors join anchors) := by
      rw [List.map_map]
      exact List.map_congr_left (fun kv hkv => hinv kv hkv)
    rw [this]
    exact hnodup
  · intro ti hti
    rw [hmain] at hti
    obtain ⟨kv, hkv, hkv2⟩ := List.mem_map.mp hti
    have hname : ti.name = kv.1 := by rw [← hkv2]; exact hinv kv hkv
    have hlook : assocLookup (parseTeamsAnchors join anchors) kv.1 = some kv.2 :=
      lookup_of_mem_nodup _ kv hkv hnodup
    unfold parseTeamsAnchors at hlook
    have hfold := lookup_teamStep_fold join anchors [] kv.1
    rw [hlook] at hfold
    cases hlm : lastMatchingAnchor anchors kv.1 with
    | none =>
      rw [show anchors.foldl (lastStep kv.1) none = (none : Option Anchor) from hlm] at hfold
      exact Option.noConfusion hfold
    | some a =>
      rw [show anchors.foldl (lastStep kv.1) none = some a from hlm] at hfold
      refine ⟨a, ?_, ?_⟩
      · rw [hname]; exact hlm
      · rw [← hkv2]
        exact Option.some.inj hfold
  · intro a hamem hapass
    have hkey : a.text ∈ keysOf (parseTeamsAnchors join anchors) :=
      text_mem_keysOf_teamStep_fold join anchors [] a hamem hapass
    obtain ⟨kv, hkv, hkeq⟩ := List.mem_map.mp hkey
    refine ⟨kv.2, ?_, ?_⟩
    · rw [hmain]
      exact List.mem_map.mpr ⟨kv, hkv, rfl⟩
    · rw [hinv kv hkv]
      exact hkeq

/-- Witness: `C8_dedup_last_wins` on one matching anchor yields one
uniquely-named entry. -/
theorem C8_dedup_last_wins_witness :
    ((parseTeams (fun h => h)
      [{ href := "/klub/7/x", text := "NK Bar", imgSrc := none }] []).map
        (fun ti => ti.name)).Nodup :=
  (C8_dedup_last_wins (fun h => h)
    [{ href := "/klub/7/x", text := "NK Bar", imgSrc := none }] []
    ⟨{ href := "/klub/7/x", text := "NK Bar", imgSrc := none },
      List.mem_singleton.mpr rfl, by decide⟩).1

/-!
## Claim C9: shirt numbers in `_parse_players_from_team_block`

The code (src/demo_scraper.py lines 229-237) takes
`prev_texts = list(h3.find_all_previous(string=True, limit=3))` — the up to
three text nodes immediately preceding the heading, nearest first, which is
the iteration order of `find_all_previous` — and then loops over
`reversed(prev_texts)`, i.e. in document order starting from the farthest of
the three, keeping the first stripped all-digit text it meets.
-/

/-- The shirt-number scan (src/demo_scraper.py lines 231-237).  `prevTexts`
is the list as `find_all_previous(string=True, limit=3)` returns it: the up
to three preceding text nodes, nearest first. -/
def shirtNumberFromPrev (prevTexts : List String) : Option Nat :=
  prevTexts.reverse.findSome? (fun t =>
    if pyIsDigit (pyStrip t.data) then some (digitsVal (pyStrip t.data)) else none)

/-- Claim C9 counterexample: with preceding text nodes "7", "x", "9" in
document order the code receives ["9", "x", "7"] (nearest first) and returns
7 — the numeric text node FARTHEST from the heading — whereas the claim says
the numeric node nearest to the heading, 9, is taken. -/
theorem C9_counterexample :
    shirtNumberFromPrev ["9", "x", "7"] = some 7 ∧ ¬ (some 7 = (some 9 : Option Nat)) := by
  constructor
  · decide
  · decide

/-- Claim C9 (amended): the shirt number is the first purely numeric text
node in DOCUMENT order among the up to three nodes preceding the heading —
the numeric node farthest from the heading — and it is omitted (`none`) when
none of them is purely numeric. -/
theorem C9_shirt_number (docOrder : List String) :
    shirtNumberFromPrev docOrder.reverse =
      docOrder.findSome? (fun t =>
        if pyIsDigit (pyStrip t.data) then some (digitsVal (pyStrip t.data)) else none) ∧
    ((∀ t ∈ docOrder, pyIsDigit (pyStrip t.data) = false) →
      shirtNumberFromPrev docOrder.reverse = none) := by
  constructor
  · unfold shirtNumberFromPrev
    rw [List.reverse_reverse]
  · intro h
    unfold shirtNumberFromPrev
    rw [List.reverse_reverse]
    exact List.findSome?_eq_none_iff.mpr (fun t ht => by simp [h t ht])

/-- Witness: `C9_shirt_number` on two non-numeric preceding nodes omits the
shirt number. -/
theorem C9_shirt_number_witness : shirtNumberFromPrev (["x", "y"].reverse) = none :=
  (C9_shirt_number ["x", "y"]).2 (by decide)

/-!
## Claim C10: `parse_fixtures` (src/scraper.py lines 99-164)

On the primary path the code looks up a venue candidate
(`v = sib.find_next(string=...)`, line 131) but never assigns it: the record
is appended with the `venue` variable still bound to `None` (line 130) and
with `match_url: None`.  The fallback path appends `venue: None`,
`match_url: None` literally.
-/

/-- A sibling element scanned by the primary fixtures path: its combined text
and the texts of its `<a>` descendants. -/
structure SibModel where
  text : String
  anchorTexts : List String
deriving DecidableEq, Repr

/-- A date text node together with the following siblings of its parent. -/
structure DateBlock where
  nodeText : String
  sibs : List SibModel
deriving DecidableEq, Repr

/-- A text node matching the score pattern, with the anchor texts of its
parent element (the fallback path's input). -/
structure ScoreNode where
  text : String
  anchorTexts : List String
deriving DecidableEq, Repr

/-- A fixture record (src/scraper.py lines 134-142 and 155-163); the kickoff
timestamp produced by the external `dateutil` collaborator stays abstract
in `δ`. -/
structure FixtureRecord (δ : Type) where
  date : Option δ
  home : String
  away : String
  home_goals : Option Nat
  away_goals : Option Nat
  venue : Option String
  match_url : Option String
deriving DecidableEq, Repr

/-- A match of `(\d+)\s*:\s*(\d+)` at the start of `cs` (every greedy piece
is deterministic at a fixed position). -/
def scoreAt (cs : List Char) : Option (Nat × Nat) :=
  if (cs.takeWhile Char.isDigit).isEmpty then none
  else
    match (cs.dropWhile Char.isDigit).dropWhile isPySpace with
    | ':' :: r2 =>
      (if ((r2.dropWhile isPySpace).takeWhile Char.isDigit).isEmpty then none
       else some (digitsVal (cs.takeWhile Char.isDigit),
                  digitsVal ((r2.dropWhile isPySpace).takeWhile Char.isDigit)))
    | _ => none

/-- `re.search(r"(\d+)\s*:\s*(\d+)", s)`: leftmost match. -/
def scoreSearch : List Char → Option (Nat × Nat)
  | [] => none
  | c :: rest =>
    match scoreAt (c :: rest) with
    | some m => some m
    | none => scoreSearch rest

/-- A match of `\d{2}\.\d{2}\.\d{4}` at the start of `cs`; the optional
trailing `\.?` of the node-filter pattern (src/scraper.py line 110) never
changes whether a search succeeds. -/
def dateAt (cs : List Char) : Bool :=
  match cs with
  | a :: b :: '.' :: c :: d :: '.' :: e :: f :: g :: h :: _ =>
    a.isDigit && b.isDigit && c.isDigit && d.isDigit &&
    e.isDigit && f.isDigit && g.isDigit && h.isDigit
  | _ => false

/-- Search for the date-node pattern of src/scraper.py line 110. -/
def dateNodeSearch : List Char → Bool
  | [] => false
  | c :: rest => dateAt (c :: rest) || dateNodeSearch rest

/-- A match of the stricter break pattern `\d{2}\.\d{2}\.\d{4}\.`
(src/scraper.py line 144) at the start of `cs`. -/
def dateDotAt (cs : List Char) : Bool :=
  match cs with
  | a :: b :: '.' :: c :: d :: '.' :: e :: f :: g :: h :: '.' :: _ =>
    a.isDigit && b.isDigit && c.isDigit && d.isDigit &&
    e.isDigit && f.isDigit && g.isDigit && h.isDigit
  | _ => false

/-- Search for the break pattern of src/scraper.py line 144. -/
def dateBreakSearch : List Char → Bool
  | [] => false
  | c :: rest => dateDotAt (c :: rest) || dateBreakSearch rest

/-- The fixture built from an accepted sibling on the primary path
(src/scraper.py lines 123-142): at least two anchors and a score-pattern
match in the combined text; the venue candidate looked up into `v` is never
assigned, so the record carries `venue = None` and `match_url = None`. -/
def fixtureFromSib {δ : Type} (parseDT : String → Option δ) (nodeText : String)
    (sib : SibModel) : Option (FixtureRecord δ) :=
  if 2 ≤ sib.anchorTexts.length then
    match scoreSearch sib.text.data with
    | some (hg, ag) =>
      some { date := parseDT nodeText,
             home := sib.anchorTexts.getD 0 "", away := sib.anchorTexts.getD 1 "",
             home_goals := some hg, away_goals := some ag,
             venue := none, match_url := none }
    | none => none
  else none

/-- The sibling walk of the primary path (src/scraper.py lines 119-145):
append a fixture for each accepted sibling; a sibling whose text contains the
full date pattern stops the walk after its own append check. -/
def fixturesFromSibs {δ : Type} (parseDT : String → Option δ) (nodeText : String) :
    List SibModel → List (FixtureRecord δ)
  | [] => []
  | sib :: rest =>
    let here := match fixtureFromSib parseDT nodeText sib with
      | some f => [f]
      | none => []
    if dateBreakSearch sib.text.data then here
    else here ++ fixturesFromSibs parseDT nodeText rest

/-- The primary path of `parse_fixtures` (src/scraper.py lines 110-145):
every text node matching the date pattern anchors a walk over at most 40
following siblings. -/
def parseFixturesPrimary {δ : Type} (parseDT : String → Option δ)
    (dateBlocks : List DateBlock) : List (FixtureRecord δ) :=
  (dateBlocks.filter (fun db => dateNodeSearch db.nodeText.data)).foldl
    (fun acc db => acc ++ fixturesFromSibs parseDT db.nodeText (db.sibs.take 40)) []

/-- The fixture(s) contributed by one score node on the fallback path
(src/scraper.py lines 148-163). -/
def fallbackRow {δ : Type} (n : ScoreNode) : List (FixtureRecord δ) :=
  match scoreSearch n.text.data with
  | none => []
  | some (hg, ag) =>
    if 2 ≤ n.anchorTexts.length then
      [{ date := none, home := n.anchorTexts.getD 0 "", away := n.anchorTexts.getD 1 "",
         home_goals := some hg, away_goals := some ag,
         venue := none, match_url := none }]
    else []

/-- The fallback path of `parse_fixtures` (src/scraper.py lines 147-163). -/
def parseFixturesFallback {δ : Type} (scoreNodes : List ScoreNode) :
    List (FixtureRecord δ) :=
  scoreNodes.foldl (fun acc n => acc ++ fallbackRow n) []

/-- `parse_fixtures` (src/scraper.py lines 99-164): the fallback runs only
when the primary path produced nothing. -/
def parseFixtures {δ : Type} (parseDT : String → Option δ) (dateBlocks : List DateBlock)
    (scoreNodes : List ScoreNode) : List (FixtureRecord δ) :=
  if (parseFixturesPrimary parseDT dateBlocks).isEmpty then parseFixturesFallback scoreNodes
  else parseFixturesPrimary parseDT dateBlocks

lemma foldl_append_mem {α β : Type} (g : α → List β) (P : β → Prop)
    (hg : ∀ (a : α) (b : β), b ∈ g a → P b) :
    ∀ (l : List α) (acc : List β), (∀ b ∈ acc, P b) →
    ∀ b ∈ l.foldl (fun acc2 a => acc2 ++ g a) acc, P b := by
  intro l
  induction l with
  | nil => intro acc hacc; exact hacc
  | cons a t ih =>
    intro acc hacc b hb
    rw [List.foldl_cons] at hb
    refine ih (acc ++ g a) ?_ b hb
    intro b2 hb2
    rcases List.mem_append.mp hb2 with h1 | h2
    · exact hacc b2 h1
    · exact hg a b2 h2

lemma fixtureFromSib_venue {δ : Type} (parseDT : String → Option δ) (nodeText : String)
    (sib : SibModel) (f : FixtureRecord δ) (h : fixtureFromSib parseDT nodeText sib = some f) :
    f.venue = none ∧ f.match_url = none := by
  unfold fixtureFromSib at h
  split at h
  · split at h
    · injection h with h1
      subst h1
      exact ⟨rfl, rfl⟩
    · exact Option.noConfusion h
  · exact Option.noConfusion h

lemma fixturesFromSibs_venue {δ : Type} (parseDT : String → Option δ) (nodeText : String) :
    ∀ (sibs : List SibModel), ∀ f ∈ fixturesFromSibs parseDT nodeText sibs,
      f.venue = none ∧ f.match_url = none := by
  intro sibs
  induction sibs with
  | nil => intro f hf; exact absurd hf (List.not_mem_nil f)
  | cons sib rest ih =>
    intro f hf
    unfold fixturesFromSibs at hf
    have hhere : ∀ g ∈ (match fixtureFromSib parseDT nodeText sib with
        | some f0 => [f0]
        | none => []), g.venue = (none : Option String) ∧ g.match_url = (none : Option String) := by
      intro g hg
      cases hfs : fixtureFromSib parseDT nodeText sib with
      | some f0 =>
        rw [hfs] at hg
        rcases List.mem_singleton.mp hg with rfl
        exact fixtureFromSib_venue parseDT nodeText sib g hfs
      | none =>
        rw [hfs] at hg
        exact absurd hg (List.not_mem_nil g)
    by_cases hbrk : dateBreakSearch sib.text.data = true
    · rw [if_pos hbrk] at hf
      exact hhere f hf
    · rw [if_neg hbrk] at hf
      rcases List.mem_append.mp hf with h1 | h2
      · exact hhere f h1
      · exact ih f h2

lemma fallbackRow_venue {δ : Type} (n : ScoreNode) (f : FixtureRecord δ)
    (h : f ∈ fallbackRow n) : f.venue = none ∧ f.match_url = none := by
  unfold fallbackRow at h
  split at h
  · exact absurd h (List.not_mem_nil f)
  · split at h
    · rcases List.mem_singleton.mp h with rfl
      exact ⟨rfl, rfl⟩
    · exact absurd h (List.not_mem_nil f)

/-- Claim C10: every fixture record produced by `parse_fixtures`, on the
date-anchored primary path as well as on the score-pattern fallback path, has
`venue = None` and `match_url = None`; the venue text looked up by the
primary path is never assigned to the record. -/
theorem C10_fixtures_no_venue {δ : Type} (parseDT : String → Option δ)
    (dateBlocks : List DateBlock) (scoreNodes : List ScoreNode) :
    ∀ f ∈ parseFixtures parseDT dateBlocks scoreNodes,
      f.venue = none ∧ f.match_url = none := by
  intro f hf
  unfold parseFixtures at hf
  by_cases hp : (parseFixturesPrimary parseDT dateBlocks).isEmpty = true
  · rw [if_pos hp] at hf
    exact foldl_append_mem (fun n => fallbackRow n) _
      (fun n f2 hf2 => fallbackRow_venue n f2 hf2) scoreNodes []
      (fun b hb => absurd hb (List.not_mem_nil b)) f hf
  · rw [if_neg hp] at hf
    unfold parseFixturesPrimary at hf
    exact foldl_append_mem
      (fun db : DateBlock => fixturesFromSibs parseDT db.nodeText (db.sibs.take 40)) _
      (fun db f2 hf2 => fixturesFromSibs_venue parseDT db.nodeText _ f2 hf2)
      _ [] (fun b hb => absurd hb (List.not_mem_nil b)) f hf

/-- Witness: `C10_fixtures_no_venue` on a concrete document producing one
fixture from the primary path. -/
theorem C10_fixtures_no_venue_witness :
    ({ date := none, home := "A", away := "B", home_goals := some 1, away_goals := some 0,
       venue := none, match_url := none } : FixtureRecord Nat).venue = none ∧
    ({ date := none, home := "A", away := "B", home_goals := some 1, away_goals := some 0,
       venue := none, match_url := none } : FixtureRecord Nat).match_url = none :=
  C10_fixtures_no_venue (fun _ => (none : Option Nat))
    [{ nodeText := "01.01.2025.", sibs := [{ text := "A 1:0 B", anchorTexts := ["A", "B"] }] }]
    [] _ (by decide)
